import Mathlib

/-!
# jsolibrary `Events.h`: the multicast callback registry

A shallow embedding of `src/jsolibrary/src/Events.h`.  The header defines the
class template `jso::Event` four times (zero to three parameters); every member
function body is the expansion of one of the `EVENT_*_IMPLEMENTATION`
preprocessor definitions, so those bodies are embedded once, over an arbitrary
argument pack `A`, and keep the names they have in the header.

* `InstancePointer` is `void*`; pointers are addresses, `nullptr` is `0`.
* `InternalFunction` is the address of one instantiation of the static member
  templates `FunctionCallback<Function>` / `ClassMethodCallback<C, Function>`.
  Two such addresses are compared with `==` in the header; an instantiation is
  identified by its template arguments, so it is embedded as a constructor
  applied to the identities of those arguments.
* `_callbacks` is `vector<unique_ptr<Callback>>`; the header only ever reads the
  pointees, so it is embedded as the list of the pointed-to pairs.
* The index of the two `removeListener` loops is a `uint16_t`: `i++` is taken
  modulo `2 ^ 16`, and the loop is given fuel, `none` meaning that the fuel ran
  out before the loop was left.
* The four classes are `Event0` to `Event3`.  Their members expand the same
  bodies; their declarations differ in the parameter lists, and naming a
  specialization `ClassMethodCallback<C, Function>` is a step that can fail
  (`templateId`).
* `SpecRegistry` is the registry in the words of the specification, for
  comparison with the classes.
-/

namespace jso

/-- The alias `using InstancePointer = void*`. -/
abbrev InstancePointer := Nat

/-- The null pointer value. -/
abbrev nullptr : InstancePointer := 0

/-- The values a `uint16_t` can hold are the naturals below this bound. -/
abbrev UINT16_RANGE : Nat := 65536

/-- The addresses `&FunctionCallback<Function>` and
`&ClassMethodCallback<C, Function>` stored in the `second` field of a
`Callback`.  `Function` is the identity of the free function (resp. of the
member function of `C`) given as template argument, `C` the identity of the
class. -/
inductive InternalFunction where
  | FunctionCallback (Function : Nat)
  | ClassMethodCallback (C : Nat) (Function : Nat)
  deriving DecidableEq

/-- The alias `using Callback = std::pair<InstancePointer, InternalFunction>`;
the components are `first` and `second`. -/
abbrev Callback := InstancePointer × InternalFunction

/-- The free functions and the member functions a translation unit can bind,
as transformers of the program state `W` outside the registry.  `function f`
is the free function with identity `f`; `method C m self` is the member
function `m` of class `C` called on the object at address `self`. -/
structure Program (A W : Type) where
  function : Nat → A → W → W
  method : Nat → Nat → InstancePointer → A → W → W

/-- Calling through an `InternalFunction`: the bodies of the two static member
templates.  `FunctionCallback<Function>(InstancePointer, args...)` returns
`(Function)(args...)`; `ClassMethodCallback<C, Function>(instance, args...)`
returns `(static_cast<C*>(instance)->*Function)(args...)`. -/
def InternalFunction.call {A W : Type} (P : Program A W) :
    InternalFunction → InstancePointer → A → W → W
  | .FunctionCallback Function, _, args, w => P.function Function args w
  | .ClassMethodCallback C Function, inst, args, w => P.method C Function inst args w

/-- One call made by `broadcast`: the `Callback` called through and the
arguments handed to it. -/
abbrev Invocation (A : Type) := Callback × A

/-- The class `Event`: its only data member is `_callbacks`. -/
structure Event where
  _callbacks : List Callback
  deriving DecidableEq

/-- The body `_callbacks.reserve(n)`: it changes the capacity of the vector
only, never its elements. -/
def vector_reserve (v : List Callback) (_n : Nat) : List Callback := v

/-- The body `EVENT_REMOVE_ALL_IMPLEMENTATION`: `_callbacks.clear()`. -/
def EVENT_REMOVE_ALL_IMPLEMENTATION (_callbacks : List Callback) : List Callback := []

/-- The range-for loop of `EVENT_ADD_LISTENER_FUNCTION_IMPLEMENTATION`:
`true` when the loop executes its `return`, that is when some entry has
`first == nullptr` and `second == &FunctionCallback<Function>`. -/
def addListenerFunctionScan (Function : Nat) : List Callback → Bool
  | [] => false
  | callback :: rest =>
    if callback.1 = nullptr ∧ callback.2 = InternalFunction.FunctionCallback Function then true
    else addListenerFunctionScan Function rest

/-- The body `EVENT_ADD_LISTENER_FUNCTION_IMPLEMENTATION`: the scan with its
early `return`, then the `push_back` of `(nullptr, &FunctionCallback<Function>)`. -/
def EVENT_ADD_LISTENER_FUNCTION_IMPLEMENTATION (Function : Nat) (_callbacks : List Callback) :
    List Callback :=
  if addListenerFunctionScan Function _callbacks then _callbacks
  else _callbacks ++ [(nullptr, InternalFunction.FunctionCallback Function)]

/-- The range-for loop of `EVENT_ADD_LISTENER_CLASS_METHOD_IMPLEMENTATION`:
`true` when the loop executes its `return`, that is when some entry has
`first == instance` and `second == &ClassMethodCallback<C, Function>`. -/
def addListenerClassMethodScan (C Function : Nat) (inst : InstancePointer) :
    List Callback → Bool
  | [] => false
  | callback :: rest =>
    if callback.1 = inst ∧ callback.2 = InternalFunction.ClassMethodCallback C Function then true
    else addListenerClassMethodScan C Function inst rest

/-- The body `EVENT_ADD_LISTENER_CLASS_METHOD_IMPLEMENTATION`: the scan with its
early `return`, then the `push_back` of
`(instance, &ClassMethodCallback<C, Function>)`. -/
def EVENT_ADD_LISTENER_CLASS_METHOD_IMPLEMENTATION (C Function : Nat) (inst : InstancePointer)
    (_callbacks : List Callback) : List Callback :=
  if addListenerClassMethodScan C Function inst _callbacks then _callbacks
  else _callbacks ++ [(inst, InternalFunction.ClassMethodCallback C Function)]

/-- The body `EVENT_BROADCAST_IMPLEMENTATION`: the range-for loop
`callback->second(callback->first, args...)`.  The result is the program state
after the loop together with the calls made, oldest first. -/
def EVENT_BROADCAST_IMPLEMENTATION {A W : Type} (P : Program A W) :
    List Callback → A → W → W × List (Invocation A)
  | [], _, w => (w, [])
  | callback :: rest, args, w =>
    let r := EVENT_BROADCAST_IMPLEMENTATION P rest args (callback.2.call P callback.1 args w)
    (r.1, (callback, args) :: r.2)

/-- The `for (i = 0; i < _callbacks.size(); i++) if (...) { found = true; break; }`
loop shared by both `removeListener` bodies, entered with the `uint16_t` index
at `i`; `test` is the condition of the `if`.  The result is the pair
`(i, found)` when the loop is left, `none` when the fuel is used up first. -/
def removeListenerLoop (_callbacks : List Callback) (test : Callback → Bool) :
    Nat → Nat → Option (Nat × Bool)
  | 0, _ => none
  | fuel + 1, i =>
    if h : i < _callbacks.length then
      if test (_callbacks[i]) then some (i, true)
      else removeListenerLoop _callbacks test fuel ((i + 1) % UINT16_RANGE)
    else some (i, false)

/-- The body `EVENT_REMOVE_LISTENER_FUNCTION_IMPLEMENTATION`: the indexed scan
for `(nullptr, &FunctionCallback<Function>)`, then
`if (found) _callbacks.erase(_callbacks.begin() + i)`. -/
def EVENT_REMOVE_LISTENER_FUNCTION_IMPLEMENTATION (fuel : Nat) (Function : Nat)
    (_callbacks : List Callback) : Option (List Callback) :=
  match removeListenerLoop _callbacks
      (fun callback => decide (callback.1 = nullptr ∧
        callback.2 = InternalFunction.FunctionCallback Function)) fuel 0 with
  | none => none
  | some (i, found) => some (if found then _callbacks.eraseIdx i else _callbacks)

/-- The body `EVENT_REMOVE_LISTENER_CLASS_METHOD_IMPLEMENTATION`: the indexed
scan for `(instance, &ClassMethodCallback<C, Function>)`, then
`if (found) _callbacks.erase(_callbacks.begin() + i)`. -/
def EVENT_REMOVE_LISTENER_CLASS_METHOD_IMPLEMENTATION (fuel : Nat) (C Function : Nat)
    (inst : InstancePointer) (_callbacks : List Callback) : Option (List Callback) :=
  match removeListenerLoop _callbacks
      (fun callback => decide (callback.1 = inst ∧
        callback.2 = InternalFunction.ClassMethodCallback C Function)) fuel 0 with
  | none => none
  | some (i, found) => some (if found then _callbacks.eraseIdx i else _callbacks)

namespace Event

/-- The constructor `Event() {}`. -/
def new : Event := ⟨[]⟩

/-- The constructor `Event(const uint16_t reserve_size)`. -/
def newReserve (reserve_size : Nat) : Event :=
  ⟨vector_reserve [] (reserve_size % UINT16_RANGE)⟩

/-- The member `template<void (*Function)(ARG...)> void addListener()`. -/
def addListener (Function : Nat) (e : Event) : Event :=
  ⟨EVENT_ADD_LISTENER_FUNCTION_IMPLEMENTATION Function e._callbacks⟩

/-- The member
`template<class C, void (C::* Function)(ARG...)> void addListener(C* instance)`. -/
def addListenerC (C Function : Nat) (inst : InstancePointer) (e : Event) : Event :=
  ⟨EVENT_ADD_LISTENER_CLASS_METHOD_IMPLEMENTATION C Function inst e._callbacks⟩

/-- The member `void broadcast(ARG... arg) const`. -/
def broadcast {A W : Type} (P : Program A W) (e : Event) (args : A) (w : W) :
    W × List (Invocation A) :=
  EVENT_BROADCAST_IMPLEMENTATION P e._callbacks args w

/-- The member `void removeAll()`. -/
def removeAll (e : Event) : Event :=
  ⟨EVENT_REMOVE_ALL_IMPLEMENTATION e._callbacks⟩

/-- The member `template<void (*Function)(ARG...)> void removeListener()`. -/
def removeListener (fuel : Nat) (Function : Nat) (e : Event) : Option Event :=
  (EVENT_REMOVE_LISTENER_FUNCTION_IMPLEMENTATION fuel Function e._callbacks).map Event.mk

/-- The member
`template<class C, void (C::* Function)(ARG...)> void removeListener(C* instance)`. -/
def removeListenerC (fuel : Nat) (C Function : Nat) (inst : InstancePointer) (e : Event) :
    Option Event :=
  (EVENT_REMOVE_LISTENER_CLASS_METHOD_IMPLEMENTATION fuel C Function inst e._callbacks).map
    Event.mk

end Event

/-- A listener as a caller names it: a free function, or a member function of
a class together with the object it is bound to. -/
inductive Listener where
  | function (Function : Nat)
  | method (C Function : Nat) (inst : InstancePointer)
  deriving DecidableEq

/-- The `Callback` value that `addListener` stores for a listener and that
`removeListener` looks for. -/
def Listener.key : Listener → Callback
  | .function Function => (nullptr, InternalFunction.FunctionCallback Function)
  | .method C Function inst => (inst, InternalFunction.ClassMethodCallback C Function)

/-- The call `addListener<...>(...)` for a listener, by overload. -/
def Event.add (l : Listener) (e : Event) : Event :=
  match l with
  | .function Function => e.addListener Function
  | .method C Function inst => e.addListenerC C Function inst

/-- The call `removeListener<...>(...)` for a listener, by overload. -/
def Event.remove (fuel : Nat) (l : Listener) (e : Event) : Option Event :=
  match l with
  | .function Function => e.removeListener fuel Function
  | .method C Function inst => e.removeListenerC fuel C Function inst

/-- The calls `addListener` for each listener of a list in turn. -/
def Event.addEach : List Listener → Event → Event
  | [], e => e
  | l :: ls, e => Event.addEach ls (e.add l)

/-- The calls `removeListener` for each listener of a list in turn; `none` when
one of the calls does not return within the fuel. -/
def Event.removeEach (fuel : Nat) : List Listener → Event → Option Event
  | [], e => some e
  | l :: ls, e =>
    match e.remove fuel l with
    | none => none
    | some e1 => Event.removeEach fuel ls e1

/-- The registries a program can build: a constructor followed by finitely many
calls of the public member functions that return. -/
inductive Reachable : Event → Prop where
  | new : Reachable Event.new
  | newReserve (reserve_size : Nat) : Reachable (Event.newReserve reserve_size)
  | addListener (Function : Nat) (e : Event) : Reachable e → Reachable (e.addListener Function)
  | addListenerC (C Function : Nat) (inst : InstancePointer) (e : Event) :
      Reachable e → Reachable (e.addListenerC C Function inst)
  | removeListener (fuel Function : Nat) (e e1 : Event) :
      Reachable e → e.removeListener fuel Function = some e1 → Reachable e1
  | removeListenerC (fuel C Function : Nat) (inst : InstancePointer) (e e1 : Event) :
      Reachable e → e.removeListenerC fuel C Function inst = some e1 → Reachable e1
  | removeAll (e : Event) : Reachable e → Reachable e.removeAll

/-- The member function `m = 0` of class `0` bound to the `n` objects at the
addresses `1, ..., n`. -/
def sameMethodOn (n : Nat) : List Listener :=
  (List.range n).map (fun a => Listener.method 0 0 (a + 1))

/-- The registry after `addListener<C, &C::m>(p)` for 65536 distinct objects. -/
def crowded : Event := ⟨(sameMethodOn UINT16_RANGE).map Listener.key⟩

/-- The registry `crowded` after one more call, `addListener<&f>()` for the free
function `f = 0`. -/
def crowdedThenFunction : Event :=
  ⟨(sameMethodOn UINT16_RANGE).map Listener.key ++ [Listener.key (Listener.function 0)]⟩

/-- The number of calls made through a given `InternalFunction` in a list of
calls. -/
def callsThrough {A : Type} (f : InternalFunction) (calls : List (Invocation A)) : Nat :=
  (calls.filter (fun c => decide (c.1.2 = f))).length

/-- A program whose state is a log: every free function and every member
function appends its own identity and the arguments it received. -/
def logging (A : Type) : Program A (List (Listener × A)) where
  function := fun f args w => w ++ [(Listener.function f, args)]
  method := fun C m self args w => w ++ [(Listener.method C m self, args)]

/-! ## The four specializations

The header writes the class four times.  The member bodies are the same
expansions; what differs is the parameter list in the declarations of the
static member templates, of the member templates and of `broadcast`.  A pointer
to function or to member function is a template argument of a given type; as
far as the four classes distinguish such types, the type is the number of
parameters, which are the leading `ARG` types of the registry. -/

/-- Whether `ClassMethodCallback<C, Function>` names a specialization, and
which.  The template parameter `Function` is declared as a pointer to a member
function with `declared` parameters, the body calls `Function` with `passed`
arguments, and the template argument is a pointer to a member function with
`given` parameters: the argument must have the type of the parameter, and the
call in the body must give the member function as many arguments as it has
parameters. -/
def templateId (declared passed given : Nat) (C Function : Nat) : Option InternalFunction :=
  if given = declared ∧ passed = declared then
    some (InternalFunction.ClassMethodCallback C Function)
  else none

namespace Event0

/-- The static member `FunctionCallback<Function>` of `template<typename T> class Event`: it ignores its
`InstancePointer` and returns `(Function)()`. -/
def FunctionCallback {W : Type} (P : Program Unit W) (Function : Nat)
    (_ : InstancePointer) (w : W) : W :=
  P.function Function () w

/-- The static member `ClassMethodCallback<C, Function>` of `template<typename T> class Event`: it
returns `(static_cast<C*>(instance)->*Function)()`. -/
def ClassMethodCallback {W : Type} (P : Program Unit W) (C Function : Nat)
    (inst : InstancePointer) (w : W) : W :=
  P.method C Function inst () w

/-- The template-id `ClassMethodCallback<C, Function>` inside `template<typename T> class Event`, for a
`Function` with `given` parameters: the template parameter is declared
`void (C::* Function)()` and the body passes 0 arguments. -/
def ClassMethodCallback_id (given C Function : Nat) : Option InternalFunction :=
  templateId 0 0 given C Function

/-- The member `template<void (*Function)()> void addListener()`. -/
def addListener (Function : Nat) (e : Event) : Event :=
  ⟨EVENT_ADD_LISTENER_FUNCTION_IMPLEMENTATION Function e._callbacks⟩

/-- The member
`template<class C, void (C::* Function)()> void addListener(C* instance)`,
instantiated at `C` and `Function`: `none` when its body, which names
`ClassMethodCallback<C, Function>`, is ill-formed. -/
def addListenerC (C Function : Nat) : Option (InstancePointer → Event → Event) :=
  match ClassMethodCallback_id 0 C Function with
  | none => none
  | some _ => some (fun inst e =>
      ⟨EVENT_ADD_LISTENER_CLASS_METHOD_IMPLEMENTATION C Function inst e._callbacks⟩)

/-- The member `void broadcast() const`.  Its body is
`EVENT_BROADCAST_IMPLEMENTATION()` with no arguments; the call embedded is
`callback->second(callback->first)`, which is what the expansion is once the
comma before the empty `__VA_ARGS__` is dropped. -/
def broadcast {W : Type} (P : Program Unit W) (e : Event) (w : W) :
    W × List (Invocation Unit) :=
  EVENT_BROADCAST_IMPLEMENTATION P e._callbacks () w

/-- The member `void removeAll()`. -/
def removeAll (e : Event) : Event :=
  ⟨EVENT_REMOVE_ALL_IMPLEMENTATION e._callbacks⟩

/-- The member `template<void (*Function)()> void removeListener()`. -/
def removeListener (fuel : Nat) (Function : Nat) (e : Event) : Option Event :=
  (EVENT_REMOVE_LISTENER_FUNCTION_IMPLEMENTATION fuel Function e._callbacks).map Event.mk

/-- The member
`template<class C, void (C::* Function)()> void removeListener(C* instance)`,
instantiated at `C` and `Function`: `none` when its body, which names
`ClassMethodCallback<C, Function>`, is ill-formed. -/
def removeListenerC (C Function : Nat) :
    Option (Nat → InstancePointer → Event → Option Event) :=
  match ClassMethodCallback_id 0 C Function with
  | none => none
  | some _ => some (fun fuel inst e =>
      (EVENT_REMOVE_LISTENER_CLASS_METHOD_IMPLEMENTATION fuel C Function inst e._callbacks).map
        Event.mk)

end Event0

namespace Event1

/-- The static member `FunctionCallback<Function>` of `Event<R(ARG0)>`: it ignores its
`InstancePointer` and returns `(Function)(arg0)`. -/
def FunctionCallback {ARG0 W : Type} (P : Program ARG0 W) (Function : Nat)
    (_ : InstancePointer) (arg0 : ARG0) (w : W) : W :=
  P.function Function arg0 w

/-- The static member `ClassMethodCallback<C, Function>` of `Event<R(ARG0)>`: it
returns `(static_cast<C*>(instance)->*Function)(arg0)`. -/
def ClassMethodCallback {ARG0 W : Type} (P : Program ARG0 W) (C Function : Nat)
    (inst : InstancePointer) (arg0 : ARG0) (w : W) : W :=
  P.method C Function inst arg0 w

/-- The template-id `ClassMethodCallback<C, Function>` inside `Event<R(ARG0)>`, for a
`Function` with `given` parameters: the template parameter is declared
`void (C::* Function)(ARG0)` and the body passes 1 arguments. -/
def ClassMethodCallback_id (given C Function : Nat) : Option InternalFunction :=
  templateId 1 1 given C Function

/-- The member `template<void (*Function)(ARG0)> void addListener()`. -/
def addListener (Function : Nat) (e : Event) : Event :=
  ⟨EVENT_ADD_LISTENER_FUNCTION_IMPLEMENTATION Function e._callbacks⟩

/-- The member
`template<class C, void (C::* Function)(ARG0)> void addListener(C* instance)`,
instantiated at `C` and `Function`: `none` when its body, which names
`ClassMethodCallback<C, Function>`, is ill-formed. -/
def addListenerC (C Function : Nat) : Option (InstancePointer → Event → Event) :=
  match ClassMethodCallback_id 1 C Function with
  | none => none
  | some _ => some (fun inst e =>
      ⟨EVENT_ADD_LISTENER_CLASS_METHOD_IMPLEMENTATION C Function inst e._callbacks⟩)

/-- The member `void broadcast(ARG0 arg0) const`. -/
def broadcast {ARG0 W : Type} (P : Program ARG0 W) (e : Event) (arg0 : ARG0) (w : W) :
    W × List (Invocation ARG0) :=
  EVENT_BROADCAST_IMPLEMENTATION P e._callbacks arg0 w

/-- The member `void removeAll()`. -/
def removeAll (e : Event) : Event :=
  ⟨EVENT_REMOVE_ALL_IMPLEMENTATION e._callbacks⟩

/-- The member `template<void (*Function)(ARG0)> void removeListener()`. -/
def removeListener (fuel : Nat) (Function : Nat) (e : Event) : Option Event :=
  (EVENT_REMOVE_LISTENER_FUNCTION_IMPLEMENTATION fuel Function e._callbacks).map Event.mk

/-- The member
`template<class C, void (C::* Function)(ARG0)> void removeListener(C* instance)`,
instantiated at `C` and `Function`: `none` when its body, which names
`ClassMethodCallback<C, Function>`, is ill-formed. -/
def removeListenerC (C Function : Nat) :
    Option (Nat → InstancePointer → Event → Option Event) :=
  match ClassMethodCallback_id 1 C Function with
  | none => none
  | some _ => some (fun fuel inst e =>
      (EVENT_REMOVE_LISTENER_CLASS_METHOD_IMPLEMENTATION fuel C Function inst e._callbacks).map
        Event.mk)

end Event1

namespace Event2

/-- The static member `FunctionCallback<Function>` of `Event<R(ARG0, ARG1)>`: it ignores its
`InstancePointer` and returns `(Function)(arg0, arg1)`. -/
def FunctionCallback {ARG0 ARG1 W : Type} (P : Program (ARG0 × ARG1) W) (Function : Nat)
    (_ : InstancePointer) (arg0 : ARG0) (arg1 : ARG1) (w : W) : W :=
  P.function Function (arg0, arg1) w

/-- The static member `ClassMethodCallback<C, Function>` of `Event<R(ARG0, ARG1)>`: it
returns `(static_cast<C*>(instance)->*Function)(arg0, arg1)`. -/
def ClassMethodCallback {ARG0 ARG1 W : Type} (P : Program (ARG0 × ARG1) W) (C Function : Nat)
    (inst : InstancePointer) (arg0 : ARG0) (arg1 : ARG1) (w : W) : W :=
  P.method C Function inst (arg0, arg1) w

/-- The template-id `ClassMethodCallback<C, Function>` inside `Event<R(ARG0, ARG1)>`, for a
`Function` with `given` parameters: the template parameter is declared
`void (C::* Function)(ARG0, ARG1)` and the body passes 2 arguments. -/
def ClassMethodCallback_id (given C Function : Nat) : Option InternalFunction :=
  templateId 2 2 given C Function

/-- The member `template<void (*Function)(ARG0, ARG1)> void addListener()`. -/
def addListener (Function : Nat) (e : Event) : Event :=
  ⟨EVENT_ADD_LISTENER_FUNCTION_IMPLEMENTATION Function e._callbacks⟩

/-- The member
`template<class C, void (C::* Function)(ARG0, ARG1)> void addListener(C* instance)`,
instantiated at `C` and `Function`: `none` when its body, which names
`ClassMethodCallback<C, Function>`, is ill-formed. -/
def addListenerC (C Function : Nat) : Option (InstancePointer → Event → Event) :=
  match ClassMethodCallback_id 2 C Function with
  | none => none
  | some _ => some (fun inst e =>
      ⟨EVENT_ADD_LISTENER_CLASS_METHOD_IMPLEMENTATION C Function inst e._callbacks⟩)

/-- The member `void broadcast(ARG0 arg0, ARG1 arg1) const`. -/
def broadcast {ARG0 ARG1 W : Type} (P : Program (ARG0 × ARG1) W) (e : Event) (arg0 : ARG0) (arg1 : ARG1) (w : W) :
    W × List (Invocation (ARG0 × ARG1)) :=
  EVENT_BROADCAST_IMPLEMENTATION P e._callbacks (arg0, arg1) w

/-- The member `void removeAll()`. -/
def removeAll (e : Event) : Event :=
  ⟨EVENT_REMOVE_ALL_IMPLEMENTATION e._callbacks⟩

/-- The member `template<void (*Function)(ARG0, ARG1)> void removeListener()`. -/
def removeListener (fuel : Nat) (Function : Nat) (e : Event) : Option Event :=
  (EVENT_REMOVE_LISTENER_FUNCTION_IMPLEMENTATION fuel Function e._callbacks).map Event.mk

/-- The member
`template<class C, void (C::* Function)(ARG0, ARG1)> void removeListener(C* instance)`,
instantiated at `C` and `Function`: `none` when its body, which names
`ClassMethodCallback<C, Function>`, is ill-formed. -/
def removeListenerC (C Function : Nat) :
    Option (Nat → InstancePointer → Event → Option Event) :=
  match ClassMethodCallback_id 2 C Function with
  | none => none
  | some _ => some (fun fuel inst e =>
      (EVENT_REMOVE_LISTENER_CLASS_METHOD_IMPLEMENTATION fuel C Function inst e._callbacks).map
        Event.mk)

end Event2

namespace Event3

/-- The static member `FunctionCallback<Function>` of `Event<R(ARG0, ARG1, ARG2)>`: it ignores its
`InstancePointer` and returns `(Function)(arg0, arg1, arg2)`. -/
def FunctionCallback {ARG0 ARG1 ARG2 W : Type} (P : Program (ARG0 × ARG1 × ARG2) W) (Function : Nat)
    (_ : InstancePointer) (arg0 : ARG0) (arg1 : ARG1) (arg2 : ARG2) (w : W) : W :=
  P.function Function (arg0, arg1, arg2) w

/-- The template-id `ClassMethodCallback<C, Function>` inside `Event<R(ARG0, ARG1, ARG2)>`, for a
`Function` with `given` parameters: the template parameter is declared
`void (C::* Function)(ARG0, ARG1)` and the body passes 3 arguments. -/
def ClassMethodCallback_id (given C Function : Nat) : Option InternalFunction :=
  templateId 2 3 given C Function

/-- The member `template<void (*Function)(ARG0, ARG1, ARG2)> void addListener()`. -/
def addListener (Function : Nat) (e : Event) : Event :=
  ⟨EVENT_ADD_LISTENER_FUNCTION_IMPLEMENTATION Function e._callbacks⟩

/-- The member
`template<class C, void (C::* Function)(ARG0, ARG1, ARG2)> void addListener(C* instance)`,
instantiated at `C` and `Function`: `none` when its body, which names
`ClassMethodCallback<C, Function>`, is ill-formed. -/
def addListenerC (C Function : Nat) : Option (InstancePointer → Event → Event) :=
  match ClassMethodCallback_id 3 C Function with
  | none => none
  | some _ => some (fun inst e =>
      ⟨EVENT_ADD_LISTENER_CLASS_METHOD_IMPLEMENTATION C Function inst e._callbacks⟩)

/-- The member `void broadcast(ARG0 arg0, ARG1 arg1, ARG2 arg2) const`. -/
def broadcast {ARG0 ARG1 ARG2 W : Type} (P : Program (ARG0 × ARG1 × ARG2) W) (e : Event) (arg0 : ARG0) (arg1 : ARG1) (arg2 : ARG2) (w : W) :
    W × List (Invocation (ARG0 × ARG1 × ARG2)) :=
  EVENT_BROADCAST_IMPLEMENTATION P e._callbacks (arg0, arg1, arg2) w

/-- The member `void removeAll()`. -/
def removeAll (e : Event) : Event :=
  ⟨EVENT_REMOVE_ALL_IMPLEMENTATION e._callbacks⟩

/-- The member `template<void (*Function)(ARG0, ARG1, ARG2)> void removeListener()`. -/
def removeListener (fuel : Nat) (Function : Nat) (e : Event) : Option Event :=
  (EVENT_REMOVE_LISTENER_FUNCTION_IMPLEMENTATION fuel Function e._callbacks).map Event.mk

/-- The member
`template<class C, void (C::* Function)(ARG0, ARG1, ARG2)> void removeListener(C* instance)`,
instantiated at `C` and `Function`: `none` when its body, which names
`ClassMethodCallback<C, Function>`, is ill-formed. -/
def removeListenerC (C Function : Nat) :
    Option (Nat → InstancePointer → Event → Option Event) :=
  match ClassMethodCallback_id 3 C Function with
  | none => none
  | some _ => some (fun fuel inst e =>
      (EVENT_REMOVE_LISTENER_CLASS_METHOD_IMPLEMENTATION fuel C Function inst e._callbacks).map
        Event.mk)

end Event3

/-! ## The registry as the specification words it -/

namespace SpecRegistry

/-- The operation `addListener` in the words of the specification: scan the
Registrations for one with the same `(target, invoker)`; if found, return
without modification; otherwise append the new Registration. -/
def addListener (key : Callback) (registrations : List Callback) : List Callback :=
  if key ∈ registrations then registrations else registrations ++ [key]

/-- The operation `removeListener` in the words of the specification: remove at
most one Registration matching the key, the first match in insertion order;
no-op if no match exists. -/
def removeListener (key : Callback) : List Callback → List Callback
  | [] => []
  | registration :: rest =>
    if registration = key then rest else registration :: removeListener key rest

/-- The operation `removeAll` in the words of the specification: clear every
Registration. -/
def removeAll (_registrations : List Callback) : List Callback := []

/-- The operation `broadcast` in the words of the specification: invoke every
Registration in insertion order, each invocation being `invoker(target, args)`. -/
def broadcast {A W : Type} (P : Program A W) (registrations : List Callback) (args : A)
    (w : W) : W × List (Invocation A) :=
  (registrations.foldl (fun st r => r.2.call P r.1 args st) w,
   registrations.map (fun r => (r, args)))

end SpecRegistry

/-! ## The worked example of the specification -/

/-- The program state of the worked example: the log that `logSum` appends to
and, for every address, the field of the `Accumulator` object at that address. -/
structure ExampleState where
  log : List Int
  total : InstancePointer → Int

/-- Modelled from the spec: the identity of the example's free function
`logSum(a, b)`; the listener is caller code, not part of the header. -/
def logSum : Nat := 0

/-- Modelled from the spec: the identity of the example's class `Accumulator`. -/
def Accumulator : Nat := 0

/-- Modelled from the spec: the identity of the example's member function
`Accumulator::add(a, b)`. -/
def Accumulator_add : Nat := 0

/-- Modelled from the spec: the address of the example's `Accumulator` object. -/
def theAccumulator : InstancePointer := 64

/-- Modelled from the spec: the example's listeners; `logSum(a, b)` appends
`a + b` to the log, `Accumulator::add(a, b)` adds `a + b` to the field of the
object it is called on.  Any other function or member function leaves the
state alone. -/
def exampleProgram : Program (Int × Int) ExampleState where
  function := fun f args w =>
    if f = logSum then { w with log := w.log ++ [args.1 + args.2] } else w
  method := fun C m self args w =>
    if C = Accumulator ∧ m = Accumulator_add then
      { w with total := fun p => if p = self then w.total p + (args.1 + args.2) else w.total p }
    else w

/-- Modelled from the spec: the state the example starts in, with an empty log
and the field of every `Accumulator` equal to `0`. -/
def exampleStart : ExampleState := ⟨[], fun _ => 0⟩

/-- The example's registry: `addListener<&logSum>()`, then
`addListener<Accumulator, &Accumulator::add>(&theAccumulator)`, on a new
two-parameter registry. -/
def exampleRegistry : Option Event :=
  (Event2.addListenerC Accumulator Accumulator_add).map
    (fun add => add theAccumulator (Event2.addListener logSum Event.new))

/-! ## More registries with `2 ^ 16` entries and more -/

/-- The registry after `addListener<&f>()` for the free function `f = 0`
followed by `addListener<C, &C::m>(p)` for 65536 distinct objects. -/
def functionThenCrowded : Event :=
  ⟨Listener.key (Listener.function 0) :: (sameMethodOn UINT16_RANGE).map Listener.key⟩

/-- The registry after `addListener<&f>()` for `f = 0`, `addListener<C, &C::m>(p)`
for 65535 distinct objects, and `addListener<&g>()` for `g = 1`: 65537 entries,
`f` at index 0 and `g` at index 65536. -/
def functionCrowdedFunction : Event :=
  ⟨Listener.key (Listener.function 0) ::
    ((sameMethodOn 65535).map Listener.key ++ [Listener.key (Listener.function 1)])⟩

/-- The registry `functionCrowdedFunction` without its first and last entries. -/
def almostCrowded : Event := ⟨(sameMethodOn 65535).map Listener.key⟩

/-- Whether a listener is the member function `Function` of class `C`, bound
to any object. -/
def Listener.isMethod (C Function : Nat) : Listener → Bool
  | Listener.method C1 Function1 _ => decide (C1 = C ∧ Function1 = Function)
  | Listener.function _ => false

/-- The free function `0`, the member function `0` of class `0` bound to 65535
distinct objects, and the free function `1`: 65537 listeners with pairwise
distinct keys, in the order in which `functionCrowdedFunction` registers them. -/
def manyListeners : List Listener :=
  Listener.function 0 :: (sameMethodOn 65535 ++ [Listener.function 1])

/-- The listeners of `manyListeners` with the last one moved to the front. -/
def manyListenersLastFirst : List Listener :=
  Listener.function 1 :: (Listener.function 0 :: sameMethodOn 65535)

/-! ## The scans of `addListener` -/

theorem addListenerFunctionScan_iff (Function : Nat) (cbs : List Callback) :
    addListenerFunctionScan Function cbs = true ↔
      (nullptr, InternalFunction.FunctionCallback Function) ∈ cbs := by
  induction cbs with
  | nil => simp [addListenerFunctionScan]
  | cons cb rest ih =>
    obtain ⟨a, b⟩ := cb
    by_cases h : a = nullptr ∧ b = InternalFunction.FunctionCallback Function
    · obtain ⟨rfl, rfl⟩ := h
      simp [addListenerFunctionScan]
    · have hne : ¬ ((nullptr, InternalFunction.FunctionCallback Function) = (a, b)) := by
        intro heq
        apply h
        cases heq
        exact ⟨rfl, rfl⟩
      simp only [addListenerFunctionScan, h, if_false, ih, List.mem_cons, hne, false_or]

theorem addListenerClassMethodScan_iff (C Function : Nat) (inst : InstancePointer)
    (cbs : List Callback) :
    addListenerClassMethodScan C Function inst cbs = true ↔
      (inst, InternalFunction.ClassMethodCallback C Function) ∈ cbs := by
  induction cbs with
  | nil => simp [addListenerClassMethodScan]
  | cons cb rest ih =>
    obtain ⟨a, b⟩ := cb
    by_cases h : a = inst ∧ b = InternalFunction.ClassMethodCallback C Function
    · obtain ⟨rfl, rfl⟩ := h
      simp [addListenerClassMethodScan]
    · have hne : ¬ ((inst, InternalFunction.ClassMethodCallback C Function) = (a, b)) := by
        intro heq
        apply h
        cases heq
        exact ⟨rfl, rfl⟩
      simp only [addListenerClassMethodScan, h, if_false, ih, List.mem_cons, hne, false_or]

/-- Both overloads of `addListener` are one operation on the stored key: nothing
when the key is in the sequence, `push_back` of the key otherwise. -/
theorem add_callbacks (l : Listener) (e : Event) :
    (e.add l)._callbacks = if l.key ∈ e._callbacks then e._callbacks
      else e._callbacks ++ [l.key] := by
  cases l with
  | function f =>
    by_cases h : (nullptr, InternalFunction.FunctionCallback f) ∈ e._callbacks
    · simp [Event.add, Event.addListener, EVENT_ADD_LISTENER_FUNCTION_IMPLEMENTATION,
        Listener.key, (addListenerFunctionScan_iff f e._callbacks).2 h, h]
    · have hs : addListenerFunctionScan f e._callbacks = false := by
        rw [← Bool.not_eq_true, addListenerFunctionScan_iff]; exact h
      simp [Event.add, Event.addListener, EVENT_ADD_LISTENER_FUNCTION_IMPLEMENTATION,
        Listener.key, hs, h]
  | method C m inst =>
    by_cases h : (inst, InternalFunction.ClassMethodCallback C m) ∈ e._callbacks
    · simp [Event.add, Event.addListenerC, EVENT_ADD_LISTENER_CLASS_METHOD_IMPLEMENTATION,
        Listener.key, (addListenerClassMethodScan_iff C m inst e._callbacks).2 h, h]
    · have hs : addListenerClassMethodScan C m inst e._callbacks = false := by
        rw [← Bool.not_eq_true, addListenerClassMethodScan_iff]; exact h
      simp [Event.add, Event.addListenerC, EVENT_ADD_LISTENER_CLASS_METHOD_IMPLEMENTATION,
        Listener.key, hs, h]

theorem add_of_mem (l : Listener) (e : Event) (h : l.key ∈ e._callbacks) : e.add l = e := by
  have := add_callbacks l e
  rw [if_pos h] at this
  cases e
  cases h2 : Event.add l _
  simp_all

theorem add_of_not_mem (l : Listener) (e : Event) (h : l.key ∉ e._callbacks) :
    e.add l = ⟨e._callbacks ++ [l.key]⟩ := by
  have := add_callbacks l e
  rw [if_neg h] at this
  cases h2 : Event.add l e
  simp_all

theorem Listener.key_injective : Function.Injective Listener.key := by
  intro a b h
  cases a <;> cases b <;> simp_all [Listener.key]

/-! ## The indexed loop of `removeListener` -/

/-- The loop walks from `i` to the first entry passing the test, provided that
entry has an index a `uint16_t` can hold. -/
theorem removeListenerLoop_found (cbs : List Callback) (test : Callback → Bool) (idx : Nat)
    (hidx : idx < cbs.length) (h16 : idx < UINT16_RANGE)
    (hat : test (cbs[idx]) = true)
    (hbefore : ∀ j (hj : j < cbs.length), j < idx → test (cbs[j]) = false) :
    ∀ (n i fuel : Nat), i + n = idx → n < fuel →
      removeListenerLoop cbs test fuel i = some (idx, true) := by
  intro n
  induction n with
  | zero =>
    intro i fuel hi hfuel
    obtain ⟨f, rfl⟩ : ∃ f, fuel = f + 1 := ⟨fuel - 1, by omega⟩
    have : i = idx := by omega
    subst this
    simp [removeListenerLoop, hidx, hat]
  | succ n ih =>
    intro i fuel hi hfuel
    obtain ⟨f, rfl⟩ : ∃ f, fuel = f + 1 := ⟨fuel - 1, by omega⟩
    have hil : i < cbs.length := by omega
    have hmod : (i + 1) % UINT16_RANGE = i + 1 := Nat.mod_eq_of_lt (by omega)
    rw [removeListenerLoop, dif_pos hil, hbefore i hil (by omega), hmod]
    simpa using ih (i + 1) f (by omega) (by omega)

/-- The loop walks from `i` to the end of a sequence in which no entry passes
the test, provided the size of the sequence is a value a `uint16_t` can hold. -/
theorem removeListenerLoop_not_found (cbs : List Callback) (test : Callback → Bool)
    (h16 : cbs.length < UINT16_RANGE)
    (hall : ∀ j (hj : j < cbs.length), test (cbs[j]) = false) :
    ∀ (n i fuel : Nat), i + n = cbs.length → n < fuel →
      removeListenerLoop cbs test fuel i = some (cbs.length, false) := by
  intro n
  induction n with
  | zero =>
    intro i fuel hi hfuel
    obtain ⟨f, rfl⟩ : ∃ f, fuel = f + 1 := ⟨fuel - 1, by omega⟩
    have : i = cbs.length := by omega
    subst this
    simp [removeListenerLoop]
  | succ n ih =>
    intro i fuel hi hfuel
    obtain ⟨f, rfl⟩ : ∃ f, fuel = f + 1 := ⟨fuel - 1, by omega⟩
    have hil : i < cbs.length := by omega
    have hmod : (i + 1) % UINT16_RANGE = i + 1 := Nat.mod_eq_of_lt (by omega)
    rw [removeListenerLoop, dif_pos hil, hall i hil, hmod]
    simpa using ih (i + 1) f (by omega) (by omega)

/-- The loop is never left when the first `2 ^ 16` entries all fail the test:
the index wraps to `0` before it can reach the size. -/
theorem removeListenerLoop_diverges (cbs : List Callback) (test : Callback → Bool)
    (hlen : UINT16_RANGE ≤ cbs.length)
    (hall : ∀ j (hj : j < cbs.length), j < UINT16_RANGE → test (cbs[j]) = false) :
    ∀ (fuel i : Nat), i < UINT16_RANGE → removeListenerLoop cbs test fuel i = none := by
  intro fuel
  induction fuel with
  | zero => intro i _; rfl
  | succ f ih =>
    intro i hi
    have hil : i < cbs.length := by omega
    rw [removeListenerLoop, dif_pos hil, hall i hil hi]
    simpa using ih ((i + 1) % UINT16_RANGE) (Nat.mod_lt _ (by decide))

/-! ## `removeListener` in terms of the stored key -/

/-- Both overloads of `removeListener` run the indexed loop with the test
"equal to the listener's key", then erase at the index found. -/
theorem remove_eq_loop (fuel : Nat) (l : Listener) (e : Event) :
    e.remove fuel l =
      (removeListenerLoop e._callbacks (fun cb => decide (cb = l.key)) fuel 0).map
        (fun r => Event.mk (if r.2 then e._callbacks.eraseIdx r.1 else e._callbacks)) := by
  cases l with
  | function f =>
    have htest : (fun (cb : Callback) => decide (cb.1 = nullptr ∧
        cb.2 = InternalFunction.FunctionCallback f)) =
        (fun cb => decide (cb = (Listener.function f).key)) := by
      funext cb
      obtain ⟨a, b⟩ := cb
      simp [Listener.key]
    simp only [Event.remove, Event.removeListener, EVENT_REMOVE_LISTENER_FUNCTION_IMPLEMENTATION,
      htest]
    cases removeListenerLoop e._callbacks
      (fun cb => decide (cb = (Listener.function f).key)) fuel 0 <;> rfl
  | method C m inst =>
    have htest : (fun (cb : Callback) => decide (cb.1 = inst ∧
        cb.2 = InternalFunction.ClassMethodCallback C m)) =
        (fun cb => decide (cb = (Listener.method C m inst).key)) := by
      funext cb
      obtain ⟨a, b⟩ := cb
      simp [Listener.key]
    simp only [Event.remove, Event.removeListenerC,
      EVENT_REMOVE_LISTENER_CLASS_METHOD_IMPLEMENTATION, htest]
    cases removeListenerLoop e._callbacks
      (fun cb => decide (cb = (Listener.method C m inst).key)) fuel 0 <;> rfl

/-- The first entry equal to the key is erased when its index is below `2 ^ 16`. -/
theorem remove_first (fuel : Nat) (l : Listener) (pre post : List Callback)
    (hpre : l.key ∉ pre) (h16 : pre.length < UINT16_RANGE) (hfuel : pre.length < fuel) :
    Event.remove fuel l ⟨pre ++ l.key :: post⟩ = some ⟨pre ++ post⟩ := by
  have hidx : pre.length < (pre ++ l.key :: post).length := by simp
  have hloop := removeListenerLoop_found (pre ++ l.key :: post) (fun cb => decide (cb = l.key))
    pre.length hidx h16
    (by simp [List.getElem_append_right (le_refl pre.length)])
    (by
      intro j hj hlt
      have hmem : (pre ++ l.key :: post)[j] ∈ pre := by
        rw [List.getElem_append_left hlt]
        exact List.getElem_mem _
      simp only [decide_eq_false_iff_not]
      intro heq
      exact hpre (heq ▸ hmem))
    pre.length 0 fuel (by omega) hfuel
  rw [remove_eq_loop]
  simp only [hloop, Option.map_some', if_true]
  congr 1
  rw [List.eraseIdx_append_of_length_le (le_refl _)]
  simp

/-- The call changes nothing when no entry equals the key and the size is
below `2 ^ 16`. -/
theorem remove_absent (fuel : Nat) (l : Listener) (e : Event)
    (habs : l.key ∉ e._callbacks) (h16 : e._callbacks.length < UINT16_RANGE)
    (hfuel : e._callbacks.length < fuel) :
    e.remove fuel l = some e := by
  have hloop := removeListenerLoop_not_found e._callbacks (fun cb => decide (cb = l.key)) h16
    (by
      intro j hj
      simp only [decide_eq_false_iff_not]
      intro heq
      exact habs (heq ▸ List.getElem_mem _))
    e._callbacks.length 0 fuel (by omega) hfuel
  rw [remove_eq_loop]
  simp [hloop]

/-- The call never returns when the sequence holds at least `2 ^ 16` entries
and none of the first `2 ^ 16` equals the key. -/
theorem remove_diverges (l : Listener) (e : Event)
    (hlen : UINT16_RANGE ≤ e._callbacks.length)
    (habs : l.key ∉ e._callbacks.take UINT16_RANGE) :
    ∀ fuel, e.remove fuel l = none := by
  intro fuel
  have hloop := removeListenerLoop_diverges e._callbacks (fun cb => decide (cb = l.key)) hlen
    (by
      intro j hj hlt
      simp only [decide_eq_false_iff_not]
      intro heq
      apply habs
      rw [← heq]
      exact List.mem_take_iff_getElem.2 ⟨j, by omega, rfl⟩)
    fuel 0 (by decide)
  rw [remove_eq_loop]
  simp [hloop]

/-- Whenever the call returns, what it leaves is a sublist of what it found. -/
theorem remove_sublist (fuel : Nat) (l : Listener) (e e1 : Event)
    (h : e.remove fuel l = some e1) : e1._callbacks.Sublist e._callbacks := by
  rw [remove_eq_loop] at h
  cases hl : removeListenerLoop e._callbacks (fun cb => decide (cb = l.key)) fuel 0 with
  | none => simp [hl] at h
  | some r =>
    simp only [hl, Option.map_some', Option.some.injEq] at h
    subst h
    by_cases hr : r.2 = true
    · simp only [hr, if_true]
      exact List.eraseIdx_sublist _ _
    · simp [hr]

/-! ## `broadcast` -/

theorem broadcast_calls {A W : Type} (P : Program A W) (args : A) :
    ∀ (cbs : List Callback) (w : W),
      (EVENT_BROADCAST_IMPLEMENTATION P cbs args w).2 = cbs.map (fun cb => (cb, args)) := by
  intro cbs
  induction cbs with
  | nil => intro w; rfl
  | cons cb rest ih =>
    intro w
    simp only [EVENT_BROADCAST_IMPLEMENTATION, List.map_cons, ih]

theorem broadcast_state {A W : Type} (P : Program A W) (args : A) :
    ∀ (cbs : List Callback) (w : W),
      (EVENT_BROADCAST_IMPLEMENTATION P cbs args w).1 =
        cbs.foldl (fun st cb => cb.2.call P cb.1 args st) w := by
  intro cbs
  induction cbs with
  | nil => intro w; rfl
  | cons cb rest ih =>
    intro w
    simp only [EVENT_BROADCAST_IMPLEMENTATION, List.foldl_cons, ih]

theorem broadcast_logging {A : Type} (args : A) :
    ∀ (ls : List Listener) (w : List (Listener × A)),
      (EVENT_BROADCAST_IMPLEMENTATION (logging A) (ls.map Listener.key) args w).1 =
        w ++ ls.map (fun l => (l, args)) := by
  intro ls
  induction ls with
  | nil => intro w; simp [EVENT_BROADCAST_IMPLEMENTATION]
  | cons l rest ih =>
    intro w
    cases l with
    | function f =>
      show (EVENT_BROADCAST_IMPLEMENTATION (logging A) (rest.map Listener.key) args
        (w ++ [(Listener.function f, args)])).1 = _
      rw [ih]
      simp
    | method C m self =>
      show (EVENT_BROADCAST_IMPLEMENTATION (logging A) (rest.map Listener.key) args
        (w ++ [(Listener.method C m self, args)])).1 = _
      rw [ih]
      simp

theorem callsThrough_map {A : Type} (f : InternalFunction) (args : A) (cbs : List Callback) :
    callsThrough f (cbs.map (fun cb => (cb, args))) =
      cbs.countP (fun cb => decide (cb.2 = f)) := by
  simp only [callsThrough, List.countP_eq_length_filter, List.filter_map, List.length_map]
  rfl

/-! ## Reachable registries -/

theorem addEach_fresh : ∀ (ls : List Listener) (e : Event),
    (e._callbacks ++ ls.map Listener.key).Nodup →
      Event.addEach ls e = ⟨e._callbacks ++ ls.map Listener.key⟩ := by
  intro ls
  induction ls with
  | nil => intro e _; simp [Event.addEach]
  | cons l rest ih =>
    intro e hnd
    have hl : l.key ∉ e._callbacks := by
      intro hmem
      rw [List.map_cons] at hnd
      exact (List.nodup_cons.1 (List.nodup_middle.1 hnd)).1 (List.mem_append_left _ hmem)
    rw [Event.addEach, add_of_not_mem l e hl, ih]
    · simp
    · simpa using hnd

theorem reachable_addEach : ∀ (ls : List Listener) (e : Event),
    Reachable e → Reachable (Event.addEach ls e) := by
  intro ls
  induction ls with
  | nil => intro e h; exact h
  | cons l rest ih =>
    intro e h
    apply ih
    cases l with
    | function f => exact Reachable.addListener f e h
    | method C m inst => exact Reachable.addListenerC C m inst e h

/-- A registry is reachable exactly when its sequence is the list of keys of
pairwise distinct listeners. -/
theorem reachable_iff (e : Event) :
    Reachable e ↔ ∃ ls : List Listener, ls.Nodup ∧ e._callbacks = ls.map Listener.key := by
  constructor
  · intro h
    induction h with
    | new => exact ⟨[], List.nodup_nil, rfl⟩
    | newReserve n => exact ⟨[], List.nodup_nil, rfl⟩
    | addListener f e _ ih =>
      obtain ⟨ls, hnd, hls⟩ := ih
      have hadd := add_callbacks (Listener.function f) e
      by_cases hmem : (Listener.function f).key ∈ e._callbacks
      · exact ⟨ls, hnd, by rw [← hls]; simpa [hmem] using hadd⟩
      · refine ⟨ls ++ [Listener.function f], ?_, ?_⟩
        · rw [List.nodup_append]
          refine ⟨hnd, List.nodup_singleton _, ?_⟩
          intro x hx hx2
          rw [List.mem_singleton] at hx2
          subst hx2
          exact hmem (hls ▸ List.mem_map_of_mem _ hx)
        · rw [if_neg hmem] at hadd
          simpa [hls] using hadd
    | addListenerC C m inst e _ ih =>
      obtain ⟨ls, hnd, hls⟩ := ih
      have hadd := add_callbacks (Listener.method C m inst) e
      by_cases hmem : (Listener.method C m inst).key ∈ e._callbacks
      · exact ⟨ls, hnd, by rw [← hls]; simpa [hmem] using hadd⟩
      · refine ⟨ls ++ [Listener.method C m inst], ?_, ?_⟩
        · rw [List.nodup_append]
          refine ⟨hnd, List.nodup_singleton _, ?_⟩
          intro x hx hx2
          rw [List.mem_singleton] at hx2
          subst hx2
          exact hmem (hls ▸ List.mem_map_of_mem _ hx)
        · rw [if_neg hmem] at hadd
          simpa [hls] using hadd
    | removeListener fuel f e e1 _ hrem ih =>
      obtain ⟨ls, hnd, hls⟩ := ih
      have hsub := remove_sublist fuel (Listener.function f) e e1 hrem
      rw [hls, List.sublist_map_iff] at hsub
      obtain ⟨ls1, hsub1, heq⟩ := hsub
      exact ⟨ls1, hnd.sublist hsub1, heq⟩
    | removeListenerC fuel C m inst e e1 _ hrem ih =>
      obtain ⟨ls, hnd, hls⟩ := ih
      have hsub := remove_sublist fuel (Listener.method C m inst) e e1 hrem
      rw [hls, List.sublist_map_iff] at hsub
      obtain ⟨ls1, hsub1, heq⟩ := hsub
      exact ⟨ls1, hnd.sublist hsub1, heq⟩
    | removeAll e _ _ => exact ⟨[], List.nodup_nil, rfl⟩
  · rintro ⟨ls, hnd, hls⟩
    have h := reachable_addEach ls Event.new Reachable.new
    rw [addEach_fresh ls Event.new (by simpa [Event.new] using hnd.map Listener.key_injective)] at h
    have he : e = ⟨Event.new._callbacks ++ ls.map Listener.key⟩ := by
      cases e
      simp_all [Event.new]
    rw [he]
    exact h

theorem reachable_nodup (e : Event) (h : Reachable e) : e._callbacks.Nodup := by
  obtain ⟨ls, hnd, hls⟩ := (reachable_iff e).1 h
  rw [hls]
  exact hnd.map Listener.key_injective

/-- In a reachable registry an entry that calls through `FunctionCallback<f>`
has a null `first`. -/
theorem reachable_function_null (e : Event) (h : Reachable e) (cb : Callback)
    (hcb : cb ∈ e._callbacks) (f : Nat) (hf : cb.2 = InternalFunction.FunctionCallback f) :
    cb = (nullptr, InternalFunction.FunctionCallback f) := by
  obtain ⟨ls, _, hls⟩ := (reachable_iff e).1 h
  rw [hls, List.mem_map] at hcb
  obtain ⟨l, _, rfl⟩ := hcb
  cases l <;> simp_all [Listener.key]

theorem countP_key_eq_zero (cbs : List Callback) (k : Callback) (hk : k ∉ cbs) :
    cbs.countP (fun cb => decide (cb = k)) = 0 := by
  rw [List.countP_eq_zero]
  intro x hx hxk
  simp only [decide_eq_true_eq] at hxk
  exact hk (hxk ▸ hx)

theorem countP_key_le_one (cbs : List Callback) (hnd : cbs.Nodup) (k : Callback) :
    cbs.countP (fun cb => decide (cb = k)) ≤ 1 := by
  induction cbs with
  | nil => simp
  | cons x xs ih =>
    obtain ⟨hx, hxs⟩ := List.nodup_cons.1 hnd
    rw [List.countP_cons]
    by_cases hxk : x = k
    · subst hxk
      rw [countP_key_eq_zero xs x hx]
      simp
    · simpa [hxk] using ih hxs

theorem countP_key_eq_one (cbs : List Callback) (hnd : cbs.Nodup) (k : Callback)
    (hk : k ∈ cbs) : cbs.countP (fun cb => decide (cb = k)) = 1 := by
  induction cbs with
  | nil => simp at hk
  | cons x xs ih =>
    obtain ⟨hx, hxs⟩ := List.nodup_cons.1 hnd
    rw [List.countP_cons]
    by_cases hxk : x = k
    · subst hxk
      rw [countP_key_eq_zero xs x hx]
      simp
    · have hk2 : k ∈ xs := by
        rcases List.mem_cons.1 hk with h | h
        · exact absurd h.symm hxk
        · exact h
      simpa [hxk] using ih hxs hk2

/-! ## Registries with `2 ^ 16` entries and more -/

theorem sameMethodOn_length (n : Nat) : (sameMethodOn n).length = n := by
  simp [sameMethodOn]

theorem sameMethodOn_nodup (n : Nat) : (sameMethodOn n).Nodup := by
  apply List.Nodup.map _ (List.nodup_range n)
  intro a b hab
  simpa using hab

theorem function_not_mem_sameMethodOn (n f : Nat) : Listener.function f ∉ sameMethodOn n := by
  simp [sameMethodOn]

theorem function_key_not_mem_sameMethodOn (n f : Nat) :
    (Listener.function f).key ∉ (sameMethodOn n).map Listener.key := by
  intro h
  rw [List.mem_map] at h
  obtain ⟨l, hl, hkey⟩ := h
  exact function_not_mem_sameMethodOn n f (Listener.key_injective hkey ▸ hl)

theorem reachable_sameMethodOn (n : Nat) :
    Reachable ⟨(sameMethodOn n).map Listener.key⟩ :=
  (reachable_iff _).2 ⟨sameMethodOn n, sameMethodOn_nodup n, rfl⟩

theorem reachable_sameMethodOn_then_function (n f : Nat) :
    Reachable ⟨(sameMethodOn n).map Listener.key ++ [Listener.key (Listener.function f)]⟩ := by
  refine (reachable_iff _).2 ⟨sameMethodOn n ++ [Listener.function f], ?_, by simp⟩
  rw [List.nodup_append]
  refine ⟨sameMethodOn_nodup _, List.nodup_singleton _, ?_⟩
  intro x hx hx2
  rw [List.mem_singleton] at hx2
  subst hx2
  exact function_not_mem_sameMethodOn _ _ hx

theorem sameMethodOn_keys_length (n : Nat) (tail : List Callback) :
    (Event.mk ((sameMethodOn n).map Listener.key ++ tail))._callbacks.length =
      n + tail.length := by
  simp [sameMethodOn_length]

/-- A free function is never found behind `2 ^ 16` or more entries that bind a
member function: the call does not return. -/
theorem removeListener_function_behind_methods (n : Nat) (hn : UINT16_RANGE ≤ n) (f : Nat)
    (tail : List Callback) (fuel : Nat) :
    Event.removeListener fuel f ⟨(sameMethodOn n).map Listener.key ++ tail⟩ = none := by
  apply remove_diverges (Listener.function f) ⟨(sameMethodOn n).map Listener.key ++ tail⟩
  · rw [sameMethodOn_keys_length]
    omega
  · intro hmem
    have hlen : UINT16_RANGE ≤ ((sameMethodOn n).map Listener.key).length := by
      simpa [sameMethodOn_length] using hn
    rw [List.take_append_of_le_length hlen] at hmem
    exact function_key_not_mem_sameMethodOn n f (List.mem_of_mem_take hmem)

theorem sameMethodOn_only_length (n : Nat) :
    (Event.mk ((sameMethodOn n).map Listener.key))._callbacks.length = n := by
  simp [sameMethodOn_length]

theorem function_absent_from_methods (n f : Nat) :
    (nullptr, InternalFunction.FunctionCallback f) ∉
      (Event.mk ((sameMethodOn n).map Listener.key))._callbacks :=
  function_key_not_mem_sameMethodOn n f

/-- A free function that is not registered is searched for without end in a
registry of `2 ^ 16` or more entries that bind a member function. -/
theorem removeListener_function_among_methods (n : Nat) (hn : UINT16_RANGE ≤ n) (f : Nat)
    (fuel : Nat) :
    Event.removeListener fuel f ⟨(sameMethodOn n).map Listener.key⟩ = none := by
  have h := removeListener_function_behind_methods n hn f [] fuel
  simpa using h

/-! ## Removing listeners one after the other -/

/-- Removing the listeners in the order they were added always returns: each
call finds its entry at index `0`. -/
theorem removeEach_in_order (fuel : Nat) (hfuel : 0 < fuel) :
    ∀ ls : List Listener, Event.removeEach fuel ls ⟨ls.map Listener.key⟩ = some ⟨[]⟩ := by
  intro ls
  induction ls with
  | nil => rfl
  | cons l rest ih =>
    have h := remove_first fuel l [] (rest.map Listener.key) (by simp) (by decide) hfuel
    simp only [List.nil_append] at h
    simp only [Event.removeEach, List.map_cons, h, ih]

/-- Removing up to `2 ^ 16` pairwise distinct listeners in any order returns and
empties the registry that holds exactly them. -/
theorem removeEach_any_order (fuel : Nat) (hfuel : UINT16_RANGE ≤ fuel) :
    ∀ (rs ls : List Listener), ls.Nodup → rs.Perm ls → ls.length ≤ UINT16_RANGE →
      Event.removeEach fuel rs ⟨ls.map Listener.key⟩ = some ⟨[]⟩ := by
  intro rs
  induction rs with
  | nil =>
    intro ls _ hperm _
    rw [List.nil_perm.1 hperm]
    rfl
  | cons r rest ih =>
    intro ls hnd hperm hlen
    have hr : r ∈ ls := hperm.subset (List.mem_cons_self r rest)
    obtain ⟨pre, post, rfl⟩ := List.append_of_mem hr
    have hnd2 : (r :: (pre ++ post)).Nodup := List.nodup_middle.1 hnd
    obtain ⟨hrnot, hnd3⟩ := List.nodup_cons.1 hnd2
    have hpre : r.key ∉ pre.map Listener.key := by
      intro hmem
      rw [List.mem_map] at hmem
      obtain ⟨x, hx, hxk⟩ := hmem
      exact hrnot (List.mem_append_left _ (Listener.key_injective hxk ▸ hx))
    have hlen2 : pre.length + post.length + 1 ≤ UINT16_RANGE := by
      simpa [Nat.add_assoc] using hlen
    have h := remove_first fuel r (pre.map Listener.key) (post.map Listener.key) hpre
      (by simp only [List.length_map]; omega) (by simp only [List.length_map]; omega)
    have hperm2 : rest.Perm (pre ++ post) := (hperm.trans List.perm_middle).cons_inv
    have hrec := ih (pre ++ post) hnd3 hperm2 (by simp only [List.length_append]; omega)
    simp only [List.map_append] at hrec
    simp only [Event.removeEach, List.map_append, List.map_cons, h, hrec]

/-! ## What a broadcast does to the program state -/

theorem broadcast_append_state {A W : Type} (P : Program A W) (args : A)
    (xs ys : List Callback) (w : W) :
    (EVENT_BROADCAST_IMPLEMENTATION P (xs ++ ys) args w).1 =
      (EVENT_BROADCAST_IMPLEMENTATION P ys args
        (EVENT_BROADCAST_IMPLEMENTATION P xs args w).1).1 := by
  simp only [broadcast_state, List.foldl_append]

theorem broadcast_cons_state {A W : Type} (P : Program A W) (args : A)
    (cb : Callback) (rest : List Callback) (w : W) :
    (EVENT_BROADCAST_IMPLEMENTATION P (cb :: rest) args w).1 =
      (EVENT_BROADCAST_IMPLEMENTATION P rest args (cb.2.call P cb.1 args w)).1 := rfl

theorem filter_eq_singleton_of_nodup (a : Listener) :
    ∀ ls : List Listener, ls.Nodup → a ∈ ls → ls.filter (fun l => decide (l = a)) = [a] := by
  intro ls
  induction ls with
  | nil => intro _ h; simp at h
  | cons x xs ih =>
    intro hnd hmem
    obtain ⟨hx, hxs⟩ := List.nodup_cons.1 hnd
    by_cases hxa : x = a
    · subst hxa
      have hnil : xs.filter (fun l => decide (l = x)) = [] := by
        rw [List.filter_eq_nil_iff]
        intro l hl hl2
        simp only [decide_eq_true_eq] at hl2
        exact hx (hl2 ▸ hl)
      simp [List.filter_cons, hnil]
    · have hmem2 : a ∈ xs := by
        rcases List.mem_cons.1 hmem with h | h
        · exact absurd h.symm hxa
        · exact h
      simp [List.filter_cons, hxa, ih hxs hmem2]

/-- With the logging program, the entries of a registry that do not call
through `ClassMethodCallback<C, m>` log nothing for the member function `m` of
`C`. -/
theorem broadcast_logging_other_entries {A : Type} (args : A) (C m : Nat) :
    ∀ (cbs : List Callback) (w : List (Listener × A)),
      (∀ cb ∈ cbs, cb.2 ≠ InternalFunction.ClassMethodCallback C m) →
      (EVENT_BROADCAST_IMPLEMENTATION (logging A) cbs args w).1.filter
          (fun p => p.1.isMethod C m) =
        w.filter (fun p => p.1.isMethod C m) := by
  intro cbs
  induction cbs with
  | nil => intro w _; rfl
  | cons cb rest ih =>
    intro w h
    have hrest : ∀ c ∈ rest, c.2 ≠ InternalFunction.ClassMethodCallback C m :=
      fun c hc => h c (List.mem_cons_of_mem cb hc)
    have hcb := h cb (List.mem_cons_self cb rest)
    rw [broadcast_cons_state, ih _ hrest]
    obtain ⟨t, inv⟩ := cb
    cases inv with
    | FunctionCallback f =>
      simp [InternalFunction.call, logging, Listener.isMethod]
    | ClassMethodCallback C1 m1 =>
      have hne : ¬ (C1 = C ∧ m1 = m) := by
        rintro ⟨rfl, rfl⟩
        exact hcb rfl
      simp [InternalFunction.call, logging, Listener.isMethod, hne]

/-! ## The claims -/

/-- C1: `broadcast(args)` calls through every entry of the registry once, in
insertion order, each call being `second(first, args)`: the list of calls is
the sequence of entries, each paired with `args`, and the program state is the
fold of those calls.  For two distinct listeners registered `L1` then `L2` on a
new registry, the listeners themselves observe the order `L1`, `L2`. -/
theorem broadcast_invokes_each_registration_in_order {A W : Type} (P : Program A W)
    (e : Event) (args : A) (w : W) :
    (e.broadcast P args w).2 = e._callbacks.map (fun cb => (cb, args)) ∧
    (e.broadcast P args w).1 = e._callbacks.foldl (fun st cb => cb.2.call P cb.1 args st) w ∧
    (∀ L1 L2 : Listener, L1 ≠ L2 →
      ((Event.new.add L1).add L2).broadcast (logging A) args [] =
        ([(L1, args), (L2, args)], [(L1.key, args), (L2.key, args)])) := by
  refine ⟨broadcast_calls P args _ w, broadcast_state P args _ w, ?_⟩
  intro L1 L2 hne
  have hkey : L2.key ≠ L1.key := fun h => hne (Listener.key_injective h).symm
  have h1 : Event.new.add L1 = ⟨[L1.key]⟩ := by
    rw [add_of_not_mem _ _ (by simp [Event.new])]; rfl
  have h2 : (Event.new.add L1).add L2 = ⟨[L1, L2].map Listener.key⟩ := by
    rw [h1, add_of_not_mem _ _ (by simpa using hkey)]; rfl
  rw [h2]
  apply Prod.ext
  · simpa [Event.broadcast] using broadcast_logging args [L1, L2] []
  · simpa [Event.broadcast] using broadcast_calls (logging A) args ([L1, L2].map Listener.key) []

theorem broadcast_invokes_each_registration_in_order_witness :
    Listener.function 1 ≠ Listener.method 0 0 7 ∧
    ((Event.new.add (Listener.function 1)).add (Listener.method 0 0 7)).broadcast
        (logging Nat) 5 [] =
      ([(Listener.function 1, 5), (Listener.method 0 0 7, 5)],
       [((Listener.function 1).key, 5), ((Listener.method 0 0 7).key, 5)]) :=
  ⟨by decide,
   (broadcast_invokes_each_registration_in_order (logging Nat) Event.new 5 []).2.2
     (Listener.function 1) (Listener.method 0 0 7) (by decide)⟩

/-- C2: in every registry reachable from a newly constructed one by calls of
`addListener`, `removeListener` (both overloads of each) and `removeAll`, no
`(first, second)` pair occurs more than once. -/
theorem reachable_registry_keys_unique (e : Event) (h : Reachable e) :
    e._callbacks.Nodup ∧
    ∀ (target : InstancePointer) (invoker : InternalFunction),
      e._callbacks.countP (fun cb => decide (cb = (target, invoker))) ≤ 1 := by
  have hnd := reachable_nodup e h
  exact ⟨hnd, fun target invoker => countP_key_le_one _ hnd (target, invoker)⟩

theorem reachable_registry_keys_unique_witness :
    Reachable ⟨[(7, InternalFunction.ClassMethodCallback 0 0)]⟩ ∧
    ([(7, InternalFunction.ClassMethodCallback 0 0)] : List Callback).Nodup ∧
    ∀ (target : InstancePointer) (invoker : InternalFunction),
      ([(7, InternalFunction.ClassMethodCallback 0 0)] : List Callback).countP
        (fun cb => decide (cb = (target, invoker))) ≤ 1 :=
  have hr : Reachable ⟨[(7, InternalFunction.ClassMethodCallback 0 0)]⟩ :=
    Reachable.removeListener 3 1 _ _
      (Reachable.addListener 1 _ (Reachable.addListenerC 0 0 7 _
        (Reachable.addListener 1 _ Reachable.new)))
      (by decide)
  ⟨hr, reachable_registry_keys_unique _ hr⟩

/-- C3: `addListener<f>()` on a registry that already holds
`(nullptr, &FunctionCallback<f>)` returns it unmodified; applied twice it
gives the same registry as applied once; and on a reachable registry each
broadcast that follows calls `f` exactly once: one call goes through
`FunctionCallback<f>`, the listeners themselves log `f` once with the
arguments of the broadcast, and for every program the state after the
broadcast is the state after the entries before `f`, then `f(args)`, then the
entries after `f`, none of those entries being one for `f`. -/
theorem addListener_function_idempotent {A W : Type} (P : Program A W) (e : Event) (f : Nat)
    (args : A) (w : W) :
    ((nullptr, InternalFunction.FunctionCallback f) ∈ e._callbacks → e.addListener f = e) ∧
    (e.addListener f).addListener f = e.addListener f ∧
    (Reachable e →
      callsThrough (InternalFunction.FunctionCallback f)
        (((e.addListener f).addListener f).broadcast P args w).2 = 1 ∧
      (((e.addListener f).addListener f).broadcast (logging A) args []).1.filter
          (fun p => decide (p.1 = Listener.function f)) = [(Listener.function f, args)] ∧
      ∃ pre post : List Callback,
        ((e.addListener f).addListener f)._callbacks =
          pre ++ (nullptr, InternalFunction.FunctionCallback f) :: post ∧
        (∀ cb ∈ pre ++ post, cb.2 ≠ InternalFunction.FunctionCallback f) ∧
        (((e.addListener f).addListener f).broadcast P args w).1 =
          (Event.broadcast P ⟨post⟩ args
            (P.function f args (Event.broadcast P ⟨pre⟩ args w).1)).1) := by
  have hmem : (Listener.function f).key ∈ (e.add (Listener.function f))._callbacks := by
    rw [add_callbacks]
    by_cases h : (Listener.function f).key ∈ e._callbacks <;> simp [h]
  have htwice : (e.addListener f).addListener f = e.addListener f :=
    add_of_mem (Listener.function f) (e.add (Listener.function f)) hmem
  refine ⟨fun h => add_of_mem (Listener.function f) e h, htwice, ?_⟩
  intro hr
  have hr1 : Reachable (e.addListener f) := Reachable.addListener f e hr
  have hnd := reachable_nodup _ hr1
  rw [htwice]
  refine ⟨?_, ?_, ?_⟩
  · show callsThrough _ (EVENT_BROADCAST_IMPLEMENTATION P _ args w).2 = 1
    rw [broadcast_calls, callsThrough_map]
    have hcongr : List.countP (fun cb => decide (cb.2 = InternalFunction.FunctionCallback f))
        (e.addListener f)._callbacks =
        List.countP (fun cb => decide (cb = (nullptr, InternalFunction.FunctionCallback f)))
          (e.addListener f)._callbacks := by
      apply List.countP_congr
      intro cb hcb
      simp only [decide_eq_true_eq]
      constructor
      · intro h2
        exact reachable_function_null _ hr1 cb hcb f h2
      · intro h2
        rw [h2]
    rw [hcongr]
    exact countP_key_eq_one _ hnd _ hmem
  · obtain ⟨ls, hls, hkeys⟩ := (reachable_iff _).1 hr1
    have hin : Listener.function f ∈ ls := by
      have h2 : (Listener.function f).key ∈ ls.map Listener.key := hkeys ▸ hmem
      rw [List.mem_map] at h2
      obtain ⟨l, hl, hk⟩ := h2
      exact Listener.key_injective hk ▸ hl
    show (EVENT_BROADCAST_IMPLEMENTATION (logging A) (e.addListener f)._callbacks args []).1.filter
      _ = _
    rw [hkeys, broadcast_logging, List.nil_append, List.filter_map]
    have hfilter : List.filter ((fun p : Listener × A => decide (p.1 = Listener.function f)) ∘
        fun l => (l, args)) ls = [Listener.function f] :=
      filter_eq_singleton_of_nodup (Listener.function f) ls hls hin
    rw [hfilter]
    rfl
  · obtain ⟨pre, post, hsplit⟩ := List.append_of_mem hmem
    have hsplit2 : (e.addListener f)._callbacks =
        pre ++ (nullptr, InternalFunction.FunctionCallback f) :: post := hsplit
    have hnd2 : ((nullptr, InternalFunction.FunctionCallback f) :: (pre ++ post)).Nodup := by
      rw [hsplit2] at hnd
      exact List.nodup_middle.1 hnd
    refine ⟨pre, post, hsplit2, ?_, ?_⟩
    · intro cb hcb hcb2
      have hin : cb ∈ (e.addListener f)._callbacks := by
        rw [hsplit2]
        rcases List.mem_append.1 hcb with h | h
        · exact List.mem_append_left _ h
        · exact List.mem_append_right _ (List.mem_cons_of_mem _ h)
      have heq := reachable_function_null _ hr1 cb hin f hcb2
      exact (List.nodup_cons.1 hnd2).1 (heq ▸ hcb)
    · show (EVENT_BROADCAST_IMPLEMENTATION P (e.addListener f)._callbacks args w).1 = _
      rw [hsplit2, broadcast_append_state, broadcast_cons_state]
      rfl

theorem addListener_function_idempotent_witness :
    ((nullptr, InternalFunction.FunctionCallback 4) ∈
        (⟨[(7, InternalFunction.ClassMethodCallback 0 0),
           (nullptr, InternalFunction.FunctionCallback 4)]⟩ : Event)._callbacks ∧
      Event.addListener 4 ⟨[(7, InternalFunction.ClassMethodCallback 0 0),
           (nullptr, InternalFunction.FunctionCallback 4)]⟩ =
        ⟨[(7, InternalFunction.ClassMethodCallback 0 0),
           (nullptr, InternalFunction.FunctionCallback 4)]⟩) ∧
    (Reachable ⟨[(7, InternalFunction.ClassMethodCallback 0 0),
           (nullptr, InternalFunction.FunctionCallback 4)]⟩ ∧
      callsThrough (InternalFunction.FunctionCallback 4)
        (((Event.addListener 4 ⟨[(7, InternalFunction.ClassMethodCallback 0 0),
           (nullptr, InternalFunction.FunctionCallback 4)]⟩).addListener 4).broadcast
            (logging Nat) 5 []).2 = 1 ∧
      (((Event.addListener 4 ⟨[(7, InternalFunction.ClassMethodCallback 0 0),
           (nullptr, InternalFunction.FunctionCallback 4)]⟩).addListener 4).broadcast
            (logging Nat) 5 []).1.filter
          (fun p => decide (p.1 = Listener.function 4)) = [(Listener.function 4, 5)]) :=
  have hr : Reachable ⟨[(7, InternalFunction.ClassMethodCallback 0 0),
      (nullptr, InternalFunction.FunctionCallback 4)]⟩ :=
    Reachable.addListener 4 _ (Reachable.addListenerC 0 0 7 _ Reachable.new)
  have hmem : (nullptr, InternalFunction.FunctionCallback 4) ∈
      (⟨[(7, InternalFunction.ClassMethodCallback 0 0),
         (nullptr, InternalFunction.FunctionCallback 4)]⟩ : Event)._callbacks := by decide
  ⟨⟨hmem, (addListener_function_idempotent (logging Nat) _ 4 5 []).1 hmem⟩,
   ⟨hr, ((addListener_function_idempotent (logging Nat) _ 4 5 []).2.2 hr).1,
    ((addListener_function_idempotent (logging Nat) _ 4 5 []).2.2 hr).2.1⟩⟩

/-- C4: when the key of a listener (the pair `addListener` would store, for
either overload) is not in the registry, `addListener` appends exactly that
pair: the new sequence is the old one followed by the key, its length is one
more, and every earlier entry keeps its position and value. -/
theorem addListener_appends_absent_key (e : Event) (l : Listener)
    (h : l.key ∉ e._callbacks) :
    (e.add l)._callbacks = e._callbacks ++ [l.key] ∧
    (e.add l)._callbacks.length = e._callbacks.length + 1 ∧
    (∀ i, i < e._callbacks.length → (e.add l)._callbacks[i]? = e._callbacks[i]?) ∧
    (e.add l)._callbacks[e._callbacks.length]? = some l.key := by
  have heq : (e.add l)._callbacks = e._callbacks ++ [l.key] := by
    rw [add_of_not_mem l e h]
  refine ⟨heq, by simp [heq], ?_, by simp [heq]⟩
  intro i hi
  rw [heq, List.getElem?_append_left hi]

theorem addListener_appends_absent_key_witness :
    (Listener.method 2 3 9).key ∉ (⟨[(nullptr, InternalFunction.FunctionCallback 4),
        (8, InternalFunction.ClassMethodCallback 2 3)]⟩ : Event)._callbacks ∧
    (Event.addListenerC 2 3 9 ⟨[(nullptr, InternalFunction.FunctionCallback 4),
        (8, InternalFunction.ClassMethodCallback 2 3)]⟩)._callbacks =
      [(nullptr, InternalFunction.FunctionCallback 4),
        (8, InternalFunction.ClassMethodCallback 2 3),
        (9, InternalFunction.ClassMethodCallback 2 3)] :=
  ⟨by decide,
   (addListener_appends_absent_key ⟨[(nullptr, InternalFunction.FunctionCallback 4),
        (8, InternalFunction.ClassMethodCallback 2 3)]⟩ (Listener.method 2 3 9) (by decide)).1⟩

/-- C5: on a registry with no entry for the member function `m` of `C`,
`addListener<C, m>(a)` twice leaves exactly one entry for `m`, namely
`(a, &ClassMethodCallback<C, m>)`, and a broadcast calls `m` once, on `a`: one
call goes through the entry, the state after the broadcast is the state after
the earlier entries followed by `a.m(args)`, and the listeners log `m` once;
`addListener<C, m>(a)` then `addListener<C, m>(b)` with `a ≠ b` leaves two
entries and a broadcast calls `m` on `a`, then on `b`. -/
theorem addListener_method_same_and_other_instance {A W : Type} (P : Program A W) (e : Event)
    (C m : Nat) (a b : InstancePointer) (args : A) (w : W)
    (h : ∀ cb ∈ e._callbacks, cb.2 ≠ InternalFunction.ClassMethodCallback C m) :
    ((e.addListenerC C m a).addListenerC C m a)._callbacks =
        e._callbacks ++ [(a, InternalFunction.ClassMethodCallback C m)] ∧
    ((e.addListenerC C m a).addListenerC C m a)._callbacks.filter
        (fun cb => decide (cb.2 = InternalFunction.ClassMethodCallback C m)) =
      [(a, InternalFunction.ClassMethodCallback C m)] ∧
    (((e.addListenerC C m a).addListenerC C m a).broadcast P args w).2.filter
        (fun c => decide (c.1.2 = InternalFunction.ClassMethodCallback C m)) =
      [((a, InternalFunction.ClassMethodCallback C m), args)] ∧
    (((e.addListenerC C m a).addListenerC C m a).broadcast P args w).1 =
      P.method C m a args (e.broadcast P args w).1 ∧
    (((e.addListenerC C m a).addListenerC C m a).broadcast (logging A) args []).1.filter
        (fun p => p.1.isMethod C m) = [(Listener.method C m a, args)] ∧
    (a ≠ b →
      ((e.addListenerC C m a).addListenerC C m b)._callbacks =
          e._callbacks ++ [(a, InternalFunction.ClassMethodCallback C m),
            (b, InternalFunction.ClassMethodCallback C m)] ∧
      (((e.addListenerC C m a).addListenerC C m b).broadcast P args w).2.filter
          (fun c => decide (c.1.2 = InternalFunction.ClassMethodCallback C m)) =
        [((a, InternalFunction.ClassMethodCallback C m), args),
         ((b, InternalFunction.ClassMethodCallback C m), args)] ∧
      (((e.addListenerC C m a).addListenerC C m b).broadcast P args w).1 =
        P.method C m b args (P.method C m a args (e.broadcast P args w).1) ∧
      (((e.addListenerC C m a).addListenerC C m b).broadcast (logging A) args []).1.filter
          (fun p => p.1.isMethod C m) =
        [(Listener.method C m a, args), (Listener.method C m b, args)]) := by
  have hfilter : e._callbacks.filter
      (fun cb => decide (cb.2 = InternalFunction.ClassMethodCallback C m)) = [] := by
    rw [List.filter_eq_nil_iff]
    intro cb hcb
    simpa using h cb hcb
  have hfilter2 : (e._callbacks.map (fun cb => (cb, args))).filter
      (fun c => decide (c.1.2 = InternalFunction.ClassMethodCallback C m)) = [] := by
    rw [List.filter_eq_nil_iff]
    intro c hc
    rw [List.mem_map] at hc
    obtain ⟨cb, hcb, rfl⟩ := hc
    simpa using h cb hcb
  have hlog : (EVENT_BROADCAST_IMPLEMENTATION (logging A) e._callbacks args []).1.filter
      (fun p => p.1.isMethod C m) = [] := by
    rw [broadcast_logging_other_entries args C m e._callbacks [] h]
    rfl
  have ha : (Listener.method C m a).key ∉ e._callbacks := fun hmem => h _ hmem rfl
  have h1 : e.addListenerC C m a = ⟨e._callbacks ++ [(a, InternalFunction.ClassMethodCallback C m)]⟩ :=
    add_of_not_mem (Listener.method C m a) e ha
  have h2 : (e.addListenerC C m a).addListenerC C m a = e.addListenerC C m a := by
    apply add_of_mem (Listener.method C m a)
    rw [h1]
    simp [Listener.key]
  refine ⟨by rw [h2, h1], by rw [h2, h1]; simp [hfilter], ?_, ?_, ?_, ?_⟩
  · rw [h2, h1]
    show (EVENT_BROADCAST_IMPLEMENTATION P _ args w).2.filter _ = _
    rw [broadcast_calls, List.map_append, List.filter_append, hfilter2]
    simp
  · rw [h2, h1]
    show (EVENT_BROADCAST_IMPLEMENTATION P _ args w).1 = _
    rw [broadcast_append_state]
    rfl
  · rw [h2, h1]
    show (EVENT_BROADCAST_IMPLEMENTATION (logging A) _ args []).1.filter _ = _
    rw [broadcast_append_state]
    show ((EVENT_BROADCAST_IMPLEMENTATION (logging A) e._callbacks args []).1 ++
      [(Listener.method C m a, args)]).filter _ = _
    rw [List.filter_append, hlog]
    simp [Listener.isMethod]
  · intro hab
    have hb : (Listener.method C m b).key ∉
        (e.addListenerC C m a)._callbacks := by
      rw [h1]
      simp only [Listener.key, List.mem_append, List.mem_singleton, Prod.mk.injEq, not_or]
      exact ⟨fun hmem => h _ hmem rfl, fun hba => hab hba.1.symm⟩
    have h3 : (e.addListenerC C m a).addListenerC C m b =
        ⟨e._callbacks ++ [(a, InternalFunction.ClassMethodCallback C m),
          (b, InternalFunction.ClassMethodCallback C m)]⟩ := by
      have := add_of_not_mem (Listener.method C m b) (e.addListenerC C m a) hb
      rw [h1] at this
      rw [h1]
      simpa [Listener.key] using this
    refine ⟨by rw [h3], ?_, ?_, ?_⟩
    · rw [h3]
      show (EVENT_BROADCAST_IMPLEMENTATION P _ args w).2.filter _ = _
      rw [broadcast_calls, List.map_append, List.filter_append, hfilter2]
      simp
    · rw [h3]
      show (EVENT_BROADCAST_IMPLEMENTATION P _ args w).1 = _
      rw [broadcast_append_state]
      rfl
    · rw [h3]
      show (EVENT_BROADCAST_IMPLEMENTATION (logging A) _ args []).1.filter _ = _
      rw [broadcast_append_state]
      show ((EVENT_BROADCAST_IMPLEMENTATION (logging A) e._callbacks args []).1 ++
        [(Listener.method C m a, args)] ++ [(Listener.method C m b, args)]).filter _ = _
      rw [List.filter_append, List.filter_append, hlog]
      simp [Listener.isMethod]

theorem addListener_method_same_and_other_instance_witness :
    (∀ cb ∈ (⟨[(nullptr, InternalFunction.FunctionCallback 4)]⟩ : Event)._callbacks,
      cb.2 ≠ InternalFunction.ClassMethodCallback 2 3) ∧
    (8 : InstancePointer) ≠ 9 ∧
    ((Event.addListenerC 2 3 8 ⟨[(nullptr, InternalFunction.FunctionCallback 4)]⟩).addListenerC
        2 3 9)._callbacks =
      [(nullptr, InternalFunction.FunctionCallback 4)] ++
        [(8, InternalFunction.ClassMethodCallback 2 3),
         (9, InternalFunction.ClassMethodCallback 2 3)] ∧
    (((Event.addListenerC 2 3 8 ⟨[(nullptr, InternalFunction.FunctionCallback 4)]⟩).addListenerC
        2 3 9).broadcast (logging Nat) 5 []).1.filter (fun p => p.1.isMethod 2 3) =
      [(Listener.method 2 3 8, 5), (Listener.method 2 3 9, 5)] :=
  ⟨by decide, by decide,
   ((addListener_method_same_and_other_instance (logging Nat)
      ⟨[(nullptr, InternalFunction.FunctionCallback 4)]⟩ 2 3 8 9 5 [] (by decide)).2.2.2.2.2
        (by decide)).1,
   ((addListener_method_same_and_other_instance (logging Nat)
      ⟨[(nullptr, InternalFunction.FunctionCallback 4)]⟩ 2 3 8 9 5 [] (by decide)).2.2.2.2.2
        (by decide)).2.2.2⟩

/-- C6: `removeListener` is claimed to erase the first entry equal to the key
in a registry of any length.  On the reachable registry `crowdedThenFunction`,
which holds 65537 entries with `(nullptr, &FunctionCallback<0>)` as its last
one (index 65536), the call `removeListener<0>()` is never left, whatever the
fuel: the `uint16_t` index wraps from 65535 to 0 and never reaches the entry. -/
theorem removeListener_past_uint16_never_returns :
    Reachable crowdedThenFunction ∧
    crowdedThenFunction._callbacks.length = UINT16_RANGE + 1 ∧
    (nullptr, InternalFunction.FunctionCallback 0) ∈ crowdedThenFunction._callbacks ∧
    ∀ fuel, crowdedThenFunction.removeListener fuel 0 = none :=
  ⟨reachable_sameMethodOn_then_function UINT16_RANGE 0,
   sameMethodOn_keys_length UINT16_RANGE [Listener.key (Listener.function 0)],
   List.mem_append_right _ (List.mem_singleton_self _),
   removeListener_function_behind_methods UINT16_RANGE (le_refl _) 0 _⟩

/-- C7: `removeListener` is claimed to return and change nothing when no entry
equals the key.  On the reachable registry `crowded`, which holds 65536 entries
none of which is `(nullptr, &FunctionCallback<0>)`, the call
`removeListener<0>()` is never left, whatever the fuel: the `uint16_t` index
wraps from 65535 to 0 and is always below the size. -/
theorem removeListener_absent_key_never_returns :
    Reachable crowded ∧
    crowded._callbacks.length = UINT16_RANGE ∧
    (nullptr, InternalFunction.FunctionCallback 0) ∉ crowded._callbacks ∧
    ∀ fuel, crowded.removeListener fuel 0 = none :=
  ⟨reachable_sameMethodOn UINT16_RANGE,
   sameMethodOn_only_length UINT16_RANGE,
   function_absent_from_methods UINT16_RANGE 0,
   removeListener_function_among_methods UINT16_RANGE (le_refl _) 0⟩

/-- C8: `removeAll()` leaves a registry with no entries, equal to the one either
constructor builds, and a broadcast that follows makes no call and leaves the
program state as it was. -/
theorem removeAll_gives_new_registry {A W : Type} (P : Program A W) (e : Event) (args : A)
    (w : W) :
    e.removeAll._callbacks = [] ∧
    e.removeAll = Event.new ∧
    (∀ reserve_size, e.removeAll = Event.newReserve reserve_size) ∧
    e.removeAll.broadcast P args w = (w, []) :=
  ⟨rfl, rfl, fun _ => rfl, rfl⟩

/-- C9: the registry built by `Event()` and the one built by
`Event(reserve_size)`, for every `reserve_size`, hold zero entries, and
`broadcast` on a registry with zero entries makes no call and returns with the
program state unchanged, for every argument pack. -/
theorem new_registry_is_empty_and_broadcast_is_noop {A W : Type} (P : Program A W) (args : A)
    (w : W) :
    Event.new._callbacks.length = 0 ∧
    (∀ reserve_size, (Event.newReserve reserve_size)._callbacks.length = 0) ∧
    Event.new.broadcast P args w = (w, []) ∧
    (∀ reserve_size, (Event.newReserve reserve_size).broadcast P args w = (w, [])) ∧
    (Event.mk []).broadcast P args w = (w, []) :=
  ⟨rfl, fun _ => rfl, rfl, fun _ => rfl, rfl⟩

/-- The round trip where it holds: adding `N` listeners with pairwise distinct
keys in turn to a new registry and broadcasting makes exactly `N` calls, one
per listener in the order added, each with the arguments given to `broadcast`
(and each listener observes those arguments); after `removeAll` a broadcast
makes no call; after `removeListener` for each of the listeners, in the order
they were added, every call returns and a broadcast makes no call; for
`N ≤ 2 ^ 16` the same holds for the removals in any order. -/
theorem add_broadcast_remove_round_trip {A W : Type} (P : Program A W) (ls : List Listener)
    (args : A) (w : W) (hd : (ls.map Listener.key).Nodup) :
    ((Event.new.addEach ls).broadcast P args w).2 = ls.map (fun l => (l.key, args)) ∧
    ((Event.new.addEach ls).broadcast P args w).2.length = ls.length ∧
    ((Event.new.addEach ls).broadcast (logging A) args []).1 = ls.map (fun l => (l, args)) ∧
    (Event.new.addEach ls).removeAll.broadcast P args w = (w, []) ∧
    (∀ fuel, 0 < fuel → ∃ e1, (Event.new.addEach ls).removeEach fuel ls = some e1 ∧
      e1.broadcast P args w = (w, [])) ∧
    (ls.length ≤ UINT16_RANGE → ∀ rs : List Listener, rs.Perm ls →
      ∀ fuel, UINT16_RANGE ≤ fuel → ∃ e1, (Event.new.addEach ls).removeEach fuel rs = some e1 ∧
        e1.broadcast P args w = (w, [])) := by
  have hadd : Event.new.addEach ls = ⟨ls.map Listener.key⟩ := by
    rw [addEach_fresh ls Event.new (by simpa [Event.new] using hd)]
    simp [Event.new]
  have hcalls : ((Event.new.addEach ls).broadcast P args w).2 =
      ls.map (fun l => (l.key, args)) := by
    rw [hadd]
    show (EVENT_BROADCAST_IMPLEMENTATION P _ args w).2 = _
    rw [broadcast_calls, List.map_map]
    rfl
  refine ⟨hcalls, by rw [hcalls, List.length_map], ?_, rfl, ?_, ?_⟩
  · rw [hadd]
    show (EVENT_BROADCAST_IMPLEMENTATION (logging A) _ args []).1 = _
    rw [broadcast_logging, List.nil_append]
  · intro fuel hfuel
    refine ⟨⟨[]⟩, ?_, rfl⟩
    rw [hadd]
    exact removeEach_in_order fuel hfuel ls
  · intro hlen rs hperm fuel hfuel
    refine ⟨⟨[]⟩, ?_, rfl⟩
    rw [hadd]
    exact removeEach_any_order fuel hfuel rs ls (List.Nodup.of_map _ hd) hperm hlen

theorem add_broadcast_remove_round_trip_witness :
    ([Listener.function 1, Listener.method 0 0 7, Listener.method 0 0 8].map Listener.key).Nodup ∧
    ((Event.new.addEach [Listener.function 1, Listener.method 0 0 7,
        Listener.method 0 0 8]).broadcast (logging Nat) 5 []).2 =
      [Listener.function 1, Listener.method 0 0 7, Listener.method 0 0 8].map
        (fun l => (l.key, 5)) ∧
    (∃ e1, (Event.new.addEach [Listener.function 1, Listener.method 0 0 7,
        Listener.method 0 0 8]).removeEach UINT16_RANGE
          [Listener.method 0 0 8, Listener.method 0 0 7, Listener.function 1] = some e1 ∧
      e1.broadcast (logging Nat) 5 [] = ([], [])) :=
  ⟨by decide,
   (add_broadcast_remove_round_trip (logging Nat)
      [Listener.function 1, Listener.method 0 0 7, Listener.method 0 0 8] 5 []
      (by decide)).1,
   (add_broadcast_remove_round_trip (logging Nat)
      [Listener.function 1, Listener.method 0 0 7, Listener.method 0 0 8] 5 []
      (by decide)).2.2.2.2.2 (by decide)
      [Listener.method 0 0 8, Listener.method 0 0 7, Listener.function 1]
      (List.reverse_perm [Listener.function 1, Listener.method 0 0 7, Listener.method 0 0 8])
      UINT16_RANGE (le_refl _)⟩

/-- C11: on the two-parameter registry, after `addListener<&logSum>()` and
`addListener<Accumulator, &Accumulator::add>(&theAccumulator)` on a new
registry, `broadcast(2, 3)` leaves the log equal to `[5]` and the field of the
accumulator equal to `5`; a second `addListener<&logSum>()` leaves the registry
as it is, so that a broadcast still appends exactly one `5`, and two broadcasts
in a row append two. -/
theorem two_parameter_worked_example :
    exampleRegistry =
      some ⟨[(nullptr, InternalFunction.FunctionCallback logSum),
        (theAccumulator, InternalFunction.ClassMethodCallback Accumulator Accumulator_add)]⟩ ∧
    exampleRegistry.map (fun e => (Event2.broadcast exampleProgram e 2 3 exampleStart).1.log) =
      some [5] ∧
    exampleRegistry.map
        (fun e => (Event2.broadcast exampleProgram e 2 3 exampleStart).1.total theAccumulator) =
      some 5 ∧
    exampleRegistry.map (fun e => Event2.addListener logSum e) = exampleRegistry ∧
    exampleRegistry.map (fun e =>
        (Event2.broadcast exampleProgram (Event2.addListener logSum e) 2 3 exampleStart).1.log) =
      some [5] ∧
    exampleRegistry.map (fun e =>
        (Event2.broadcast exampleProgram (Event2.addListener logSum e) 2 3
          (Event2.broadcast exampleProgram (Event2.addListener logSum e) 2 3
            exampleStart).1).1.log) =
      some [5, 5] :=
  ⟨by decide, by decide, by decide, by decide, by decide, by decide⟩

/-- C12: the three-parameter registry is claimed to take bound-method listeners
like the other arities.  Its `ClassMethodCallback` declares `Function` as a
pointer to a member function with the two parameters `(ARG0, ARG1)` and calls it
with three arguments, so `ClassMethodCallback<C, Function>` names no
specialization for any member function, and neither `addListener<C, Function>`
nor `removeListener<C, Function>` can be instantiated; in the two-, one- and
zero-parameter registries they can. -/
theorem three_parameter_method_listener_cannot_be_bound :
    (∀ given C Function, Event3.ClassMethodCallback_id given C Function = none) ∧
    (∀ C Function, Event3.addListenerC C Function = none) ∧
    (∀ C Function, Event3.removeListenerC C Function = none) ∧
    (∀ C Function, (Event2.addListenerC C Function).isSome = true ∧
      (Event1.addListenerC C Function).isSome = true ∧
      (Event0.addListenerC C Function).isSome = true) := by
  have h : ∀ given C Function, Event3.ClassMethodCallback_id given C Function = none := by
    intro given C Function
    simp [Event3.ClassMethodCallback_id, templateId]
  refine ⟨h, ?_, ?_, ?_⟩
  · intro C Function
    simp [Event3.addListenerC, h]
  · intro C Function
    simp [Event3.removeListenerC, h]
  · intro C Function
    exact ⟨rfl, rfl, rfl⟩

/-! ## The specification's `removeListener` and the indexed loop -/

theorem spec_removeListener_of_not_mem (key : Callback) :
    ∀ cbs : List Callback, key ∉ cbs → SpecRegistry.removeListener key cbs = cbs := by
  intro cbs
  induction cbs with
  | nil => intro _; rfl
  | cons x xs ih =>
    intro h
    have hx : x ≠ key := fun hxk => h (hxk ▸ List.mem_cons_self x xs)
    have hxs : key ∉ xs := fun hmem => h (List.mem_cons_of_mem x hmem)
    simp [SpecRegistry.removeListener, hx, ih hxs]

/-- The first entry equal to the key splits the sequence, and the
specification's `removeListener` leaves the two sides of it. -/
theorem spec_removeListener_of_mem (key : Callback) :
    ∀ cbs : List Callback, key ∈ cbs →
      ∃ pre post, cbs = pre ++ key :: post ∧ key ∉ pre ∧
        SpecRegistry.removeListener key cbs = pre ++ post := by
  intro cbs
  induction cbs with
  | nil => intro h; simp at h
  | cons x xs ih =>
    intro h
    by_cases hx : x = key
    · subst hx
      exact ⟨[], xs, rfl, by simp, by simp [SpecRegistry.removeListener]⟩
    · have hxs : key ∈ xs := by
        rcases List.mem_cons.1 h with h1 | h1
        · exact absurd h1.symm hx
        · exact h1
      obtain ⟨pre, post, hsplit, hpre, hrem⟩ := ih hxs
      refine ⟨x :: pre, post, by simp [hsplit], ?_, by simp [SpecRegistry.removeListener, hx, hrem]⟩
      intro hmem
      rcases List.mem_cons.1 hmem with h1 | h1
      · exact hx h1.symm
      · exact hpre h1

theorem spec_removeListener_length_le (key : Callback) :
    ∀ cbs : List Callback, (SpecRegistry.removeListener key cbs).length ≤ cbs.length := by
  intro cbs
  induction cbs with
  | nil => simp [SpecRegistry.removeListener]
  | cons x xs ih =>
    by_cases hx : x = key
    · simp [SpecRegistry.removeListener, hx]
    · simpa [SpecRegistry.removeListener, hx] using ih

theorem spec_removeListener_comm (a b : Callback) :
    ∀ cbs : List Callback,
      SpecRegistry.removeListener a (SpecRegistry.removeListener b cbs) =
        SpecRegistry.removeListener b (SpecRegistry.removeListener a cbs) := by
  intro cbs
  induction cbs with
  | nil => rfl
  | cons x xs ih =>
    by_cases hxa : x = a <;> by_cases hxb : x = b
    · rw [← hxa, ← hxb]
    · subst hxa
      simp [SpecRegistry.removeListener, hxb]
    · subst hxb
      simp [SpecRegistry.removeListener, hxa]
    · simp [SpecRegistry.removeListener, hxa, hxb, ih]

/-- Below `2 ^ 16` entries both overloads of `removeListener` return, and what
they leave is what the specification's `removeListener` leaves. -/
theorem remove_eq_spec_below_uint16 (fuel : Nat) (l : Listener) (e : Event)
    (h16 : e._callbacks.length < UINT16_RANGE) (hfuel : e._callbacks.length < fuel) :
    e.remove fuel l = some ⟨SpecRegistry.removeListener l.key e._callbacks⟩ := by
  by_cases hmem : l.key ∈ e._callbacks
  · obtain ⟨pre, post, hsplit, hpre, hrem⟩ := spec_removeListener_of_mem l.key _ hmem
    have hlen : pre.length < e._callbacks.length := by
      rw [hsplit]
      simp
    have h := remove_first fuel l pre post hpre (by omega) (by omega)
    rw [hrem, ← h]
    congr 1
    cases e
    simp_all
  · rw [spec_removeListener_of_not_mem l.key _ hmem]
    exact remove_absent fuel l e hmem h16 hfuel

/-- A member function of another class is searched for without end in a
registry of `2 ^ 16` or more entries that all bind the member function `0` of
class `0`. -/
theorem removeListenerC_other_class_among_methods (n : Nat) (hn : UINT16_RANGE ≤ n)
    (C m : Nat) (inst : InstancePointer) (hC : C ≠ 0) (fuel : Nat) :
    Event.removeListenerC fuel C m inst ⟨(sameMethodOn n).map Listener.key⟩ = none := by
  apply remove_diverges (Listener.method C m inst) ⟨(sameMethodOn n).map Listener.key⟩
  · simpa [sameMethodOn_length] using hn
  · intro hmem
    have h2 := List.mem_of_mem_take hmem
    rw [List.mem_map] at h2
    obtain ⟨l, hl, hkey⟩ := h2
    have hl2 := Listener.key_injective hkey
    subst hl2
    simp only [sameMethodOn, List.mem_map, List.mem_range, Listener.method.injEq] at hl
    obtain ⟨a, _, h0, _, _⟩ := hl
    exact hC h0.symm

/-- C14: `removeListener` is claimed to terminate on every registry.  On the
registry `crowded`, which holds 65536 entries, neither overload is ever left
when the key is absent, whatever the fuel: the `uint16_t` index wraps from
65535 to 0 and stays below the size. -/
theorem removeListener_uint16_index_wraps_forever :
    crowded._callbacks.length = UINT16_RANGE ∧
    (∀ fuel, crowded.removeListener fuel 1 = none) ∧
    (∀ fuel, crowded.removeListenerC fuel 1 0 1 = none) :=
  ⟨sameMethodOn_only_length UINT16_RANGE,
   removeListener_function_among_methods UINT16_RANGE (le_refl _) 1,
   removeListenerC_other_class_among_methods UINT16_RANGE (le_refl _) 1 0 1 (by decide)⟩

/-- C15: calling through a stored `FunctionCallback<f>` address is calling `f`
on the arguments, whatever the `InstancePointer`; calling through a stored
`ClassMethodCallback<C, m>` address with the pointer `c` is calling `m` on the
object at `c` with the arguments, in the order given.  This holds for the
generic argument pack and for the static members of the zero-, one- and
two-parameter classes (and for `FunctionCallback` of the three-parameter
class). -/
theorem invoker_dispatch {A ARG0 ARG1 ARG2 W : Type} (P : Program A W) (P0 : Program Unit W)
    (P1 : Program ARG0 W) (P2 : Program (ARG0 × ARG1) W) (P3 : Program (ARG0 × ARG1 × ARG2) W)
    (f C m : Nat) (t t1 c : InstancePointer) (args : A) (arg0 : ARG0) (arg1 : ARG1)
    (arg2 : ARG2) (w : W) :
    (InternalFunction.FunctionCallback f).call P t args w = P.function f args w ∧
    (InternalFunction.FunctionCallback f).call P t args w =
      (InternalFunction.FunctionCallback f).call P t1 args w ∧
    (InternalFunction.ClassMethodCallback C m).call P c args w = P.method C m c args w ∧
    Event0.FunctionCallback P0 f t w = P0.function f () w ∧
    Event0.ClassMethodCallback P0 C m c w = P0.method C m c () w ∧
    Event1.FunctionCallback P1 f t arg0 w = P1.function f arg0 w ∧
    Event1.ClassMethodCallback P1 C m c arg0 w = P1.method C m c arg0 w ∧
    Event2.FunctionCallback P2 f t arg0 arg1 w = P2.function f (arg0, arg1) w ∧
    Event2.ClassMethodCallback P2 C m c arg0 arg1 w = P2.method C m c (arg0, arg1) w ∧
    Event3.FunctionCallback P3 f t arg0 arg1 arg2 w = P3.function f (arg0, arg1, arg2) w ∧
    (InternalFunction.FunctionCallback f).call P0 t () w = Event0.FunctionCallback P0 f t1 w ∧
    (InternalFunction.ClassMethodCallback C m).call P0 c () w =
      Event0.ClassMethodCallback P0 C m c w ∧
    (InternalFunction.FunctionCallback f).call P2 t (arg0, arg1) w =
      Event2.FunctionCallback P2 f t1 arg0 arg1 w ∧
    (InternalFunction.ClassMethodCallback C m).call P2 c (arg0, arg1) w =
      Event2.ClassMethodCallback P2 C m c arg0 arg1 w :=
  ⟨rfl, rfl, rfl, rfl, rfl, rfl, rfl, rfl, rfl, rfl, rfl, rfl, rfl, rfl⟩

/-! ## Sequences of calls on registries with `2 ^ 16` entries and more -/

theorem add_then_remove_function_behind_methods (n : Nat) (hn : UINT16_RANGE ≤ n) (f : Nat)
    (fuel : Nat) :
    Event.removeListener fuel f
      (Event.addListener f ⟨(sameMethodOn n).map Listener.key⟩) = none := by
  have hadd : Event.addListener f ⟨(sameMethodOn n).map Listener.key⟩ =
      ⟨(sameMethodOn n).map Listener.key ++ [Listener.key (Listener.function f)]⟩ :=
    add_of_not_mem (Listener.function f) ⟨(sameMethodOn n).map Listener.key⟩
      (function_key_not_mem_sameMethodOn n f)
  rw [hadd]
  exact removeListener_function_behind_methods n hn f _ fuel

theorem reachable_function_then_sameMethodOn (n f : Nat) :
    Reachable ⟨Listener.key (Listener.function f) :: (sameMethodOn n).map Listener.key⟩ := by
  refine (reachable_iff _).2 ⟨Listener.function f :: sameMethodOn n, ?_, by simp⟩
  exact List.nodup_cons.2 ⟨function_not_mem_sameMethodOn n f, sameMethodOn_nodup n⟩

theorem removeListener_function_at_head (f fuel : Nat) (rest : List Callback) :
    Event.removeListener (fuel + 1) f ⟨Listener.key (Listener.function f) :: rest⟩ =
      some ⟨rest⟩ := by
  have h := remove_first (fuel + 1) (Listener.function f) [] rest (by simp) (by decide)
    (by simp)
  simpa using h

theorem reachable_function_methods_function (n f g : Nat) (hfg : f ≠ g) :
    Reachable ⟨Listener.key (Listener.function f) ::
      ((sameMethodOn n).map Listener.key ++ [Listener.key (Listener.function g)])⟩ := by
  refine (reachable_iff _).2
    ⟨Listener.function f :: (sameMethodOn n ++ [Listener.function g]), ?_, by simp⟩
  rw [List.nodup_cons, List.nodup_append]
  refine ⟨?_, sameMethodOn_nodup n, List.nodup_singleton _, ?_⟩
  · intro hmem
    rcases List.mem_append.1 hmem with h | h
    · exact function_not_mem_sameMethodOn n f h
    · simp at h
      exact hfg h
  · intro x hx hx2
    rw [List.mem_singleton] at hx2
    subst hx2
    exact function_not_mem_sameMethodOn _ _ hx

/-- Removing the first entry, then the last one, returns: the last entry has
moved to an index a `uint16_t` can hold. -/
theorem removeEach_head_then_last (n : Nat) (hn : n < UINT16_RANGE) (f g fuel : Nat) :
    Event.removeEach (fuel + UINT16_RANGE) [Listener.function f, Listener.function g]
        ⟨Listener.key (Listener.function f) ::
          ((sameMethodOn n).map Listener.key ++ [Listener.key (Listener.function g)])⟩ =
      some ⟨(sameMethodOn n).map Listener.key⟩ := by
  have h1 := remove_first (fuel + UINT16_RANGE) (Listener.function f) []
    ((sameMethodOn n).map Listener.key ++ [Listener.key (Listener.function g)])
    (by simp) (by decide) (by simp)
  have h2 := remove_first (fuel + UINT16_RANGE) (Listener.function g)
    ((sameMethodOn n).map Listener.key) [] (function_key_not_mem_sameMethodOn n g)
    (by simpa [sameMethodOn_length] using hn)
    (by simp only [List.length_map, sameMethodOn_length]; omega)
  simp only [List.nil_append, List.append_nil] at h1 h2
  simp only [Event.removeEach, h1, h2]

/-- Removing the last entry first never returns when it sits at index `2 ^ 16`
or beyond. -/
theorem removeEach_last_then_head (n : Nat) (hn : UINT16_RANGE ≤ n + 1) (f g : Nat)
    (hfg : f ≠ g) (fuel : Nat) :
    Event.removeEach fuel [Listener.function g, Listener.function f]
        ⟨Listener.key (Listener.function f) ::
          ((sameMethodOn n).map Listener.key ++ [Listener.key (Listener.function g)])⟩ =
      none := by
  have hdiv := remove_diverges (Listener.function g)
    ⟨Listener.key (Listener.function f) ::
      ((sameMethodOn n).map Listener.key ++ [Listener.key (Listener.function g)])⟩
    (by simp only [List.length_cons, List.length_append, List.length_map, sameMethodOn_length,
          List.length_singleton]; omega)
    (by
      intro hmem
      have hsplit : Listener.key (Listener.function f) ::
          ((sameMethodOn n).map Listener.key ++ [Listener.key (Listener.function g)]) =
          (Listener.key (Listener.function f) :: (sameMethodOn n).map Listener.key) ++
            [Listener.key (Listener.function g)] := rfl
      have hlen : UINT16_RANGE ≤
          (Listener.key (Listener.function f) :: (sameMethodOn n).map Listener.key).length := by
        simpa [sameMethodOn_length] using hn
      simp only [hsplit] at hmem
      rw [List.take_append_of_le_length hlen] at hmem
      rcases List.mem_cons.1 (List.mem_of_mem_take hmem) with h | h
      · exact hfg (by simpa [Listener.key] using h.symm)
      · exact function_key_not_mem_sameMethodOn n g h)
    fuel
  simp only [Event.removeEach, hdiv]

/-! ## The same sequences of calls below `2 ^ 16` entries -/

/-- Below `2 ^ 16` entries, `addListener` of an absent key followed by
`removeListener` of it returns the registry it started from. -/
theorem add_then_remove_below_uint16 (fuel : Nat) (l : Listener) (e : Event)
    (habs : l.key ∉ e._callbacks) (h16 : e._callbacks.length < UINT16_RANGE)
    (hfuel : e._callbacks.length < fuel) :
    (e.add l).remove fuel l = some e := by
  rw [add_of_not_mem l e habs]
  exact remove_first fuel l e._callbacks [] habs h16 hfuel |>.trans (by simp)

/-- Below `2 ^ 16` entries, on a reachable registry, `removeListener` leaves no
entry equal to the key and a second call returns the same registry. -/
theorem remove_twice_below_uint16 (fuel : Nat) (l : Listener) (e : Event) (hr : Reachable e)
    (h16 : e._callbacks.length < UINT16_RANGE) (hfuel : e._callbacks.length < fuel) :
    ∃ e1, e.remove fuel l = some e1 ∧ l.key ∉ e1._callbacks ∧ e1.remove fuel l = some e1 := by
  have hnd := reachable_nodup e hr
  by_cases hmem : l.key ∈ e._callbacks
  · obtain ⟨pre, post, hsplit, hpre, _⟩ := spec_removeListener_of_mem l.key _ hmem
    have hlen : e._callbacks.length = pre.length + post.length + 1 := by
      rw [hsplit]
      simp [Nat.add_assoc]
    have hpost : l.key ∉ post := by
      rw [hsplit] at hnd
      have h2 := List.nodup_cons.1 (List.nodup_middle.1 hnd)
      exact fun h => h2.1 (List.mem_append_right _ h)
    have habs : l.key ∉ pre ++ post := by
      intro h
      rcases List.mem_append.1 h with h | h
      · exact hpre h
      · exact hpost h
    have he : e = ⟨pre ++ l.key :: post⟩ := by
      cases e
      simp_all
    refine ⟨⟨pre ++ post⟩, ?_, habs, ?_⟩
    · rw [he]
      exact remove_first fuel l pre post hpre (by omega) (by omega)
    · exact remove_absent fuel l ⟨pre ++ post⟩ habs
        (by simp only [List.length_append]; omega) (by simp only [List.length_append]; omega)
  · exact ⟨e, remove_absent fuel l e hmem h16 hfuel, hmem, remove_absent fuel l e hmem h16 hfuel⟩

/-- Below `2 ^ 16` entries two removals commute, on every sequence. -/
theorem remove_comm_below_uint16 (fuel : Nat) (l1 l2 : Listener) (e : Event)
    (h16 : e._callbacks.length < UINT16_RANGE) (hfuel : e._callbacks.length < fuel) :
    Event.removeEach fuel [l1, l2] e = Event.removeEach fuel [l2, l1] e ∧
    Event.removeEach fuel [l1, l2] e =
      some ⟨SpecRegistry.removeListener l2.key
        (SpecRegistry.removeListener l1.key e._callbacks)⟩ := by
  have h1 := remove_eq_spec_below_uint16 fuel l1 e h16 hfuel
  have h2 := remove_eq_spec_below_uint16 fuel l2 e h16 hfuel
  have hl1 := spec_removeListener_length_le l1.key e._callbacks
  have hl2 := spec_removeListener_length_le l2.key e._callbacks
  have h12 := remove_eq_spec_below_uint16 fuel l2
    ⟨SpecRegistry.removeListener l1.key e._callbacks⟩ (by simp only; omega) (by simp only; omega)
  have h21 := remove_eq_spec_below_uint16 fuel l1
    ⟨SpecRegistry.removeListener l2.key e._callbacks⟩ (by simp only; omega) (by simp only; omega)
  simp only [Event.removeEach, h1, h2, h12, h21, spec_removeListener_comm l1.key l2.key,
    and_self]

theorem spec_removeListener_function_among_methods (n f : Nat) :
    SpecRegistry.removeListener (nullptr, InternalFunction.FunctionCallback f)
        (Event.mk ((sameMethodOn n).map Listener.key))._callbacks =
      (Event.mk ((sameMethodOn n).map Listener.key))._callbacks :=
  spec_removeListener_of_not_mem _ _ (function_absent_from_methods n f)

theorem add_eq_spec (l : Listener) (e : Event) :
    (e.add l)._callbacks = SpecRegistry.addListener l.key e._callbacks :=
  add_callbacks l e

theorem broadcast_eq_spec {A W : Type} (P : Program A W) (cbs : List Callback) (args : A)
    (w : W) :
    EVENT_BROADCAST_IMPLEMENTATION P cbs args w = SpecRegistry.broadcast P cbs args w :=
  Prod.ext (broadcast_state P args cbs w) (broadcast_calls P args cbs w)

/-- C16: the four specializations are claimed to behave as one generic registry
at their argument pack.  `addListener<f>`, `removeAll` and `broadcast` of all
four, and `addListener<C, m>` of the zero-, one- and two-parameter classes, do
what the specification's registry does.  The three-parameter class cannot
instantiate `addListener<C, m>` and `removeListener<C, m>` at all, and on the
registry `crowded` the call `removeListener<f>()` is never left where the
specification's `removeListener` changes nothing. -/
theorem specializations_against_generic_registry {ARG0 ARG1 ARG2 W : Type}
    (P0 : Program Unit W) (P1 : Program ARG0 W) (P2 : Program (ARG0 × ARG1) W)
    (P3 : Program (ARG0 × ARG1 × ARG2) W) (e : Event) (f C m : Nat) (inst : InstancePointer)
    (arg0 : ARG0) (arg1 : ARG1) (arg2 : ARG2) (w : W) :
    ((Event0.addListener f e)._callbacks =
        SpecRegistry.addListener (nullptr, InternalFunction.FunctionCallback f) e._callbacks ∧
      (Event1.addListener f e)._callbacks =
        SpecRegistry.addListener (nullptr, InternalFunction.FunctionCallback f) e._callbacks ∧
      (Event2.addListener f e)._callbacks =
        SpecRegistry.addListener (nullptr, InternalFunction.FunctionCallback f) e._callbacks ∧
      (Event3.addListener f e)._callbacks =
        SpecRegistry.addListener (nullptr, InternalFunction.FunctionCallback f) e._callbacks) ∧
    ((Event0.addListenerC C m).map (fun add => (add inst e)._callbacks) =
        some (SpecRegistry.addListener (inst, InternalFunction.ClassMethodCallback C m)
          e._callbacks) ∧
      (Event1.addListenerC C m).map (fun add => (add inst e)._callbacks) =
        some (SpecRegistry.addListener (inst, InternalFunction.ClassMethodCallback C m)
          e._callbacks) ∧
      (Event2.addListenerC C m).map (fun add => (add inst e)._callbacks) =
        some (SpecRegistry.addListener (inst, InternalFunction.ClassMethodCallback C m)
          e._callbacks)) ∧
    ((Event0.removeAll e)._callbacks = SpecRegistry.removeAll e._callbacks ∧
      (Event1.removeAll e)._callbacks = SpecRegistry.removeAll e._callbacks ∧
      (Event2.removeAll e)._callbacks = SpecRegistry.removeAll e._callbacks ∧
      (Event3.removeAll e)._callbacks = SpecRegistry.removeAll e._callbacks) ∧
    (Event0.broadcast P0 e w = SpecRegistry.broadcast P0 e._callbacks () w ∧
      Event1.broadcast P1 e arg0 w = SpecRegistry.broadcast P1 e._callbacks arg0 w ∧
      Event2.broadcast P2 e arg0 arg1 w =
        SpecRegistry.broadcast P2 e._callbacks (arg0, arg1) w ∧
      Event3.broadcast P3 e arg0 arg1 arg2 w =
        SpecRegistry.broadcast P3 e._callbacks (arg0, arg1, arg2) w) ∧
    (Event3.addListenerC C m = none ∧ Event3.removeListenerC C m = none) ∧
    ((∀ fuel, Event2.removeListener fuel f crowded = none) ∧
      SpecRegistry.removeListener (nullptr, InternalFunction.FunctionCallback f)
        crowded._callbacks = crowded._callbacks) := by
  have hf := add_eq_spec (Listener.function f) e
  have hm := add_eq_spec (Listener.method C m inst) e
  have h3 : ∀ given, Event3.ClassMethodCallback_id given C m = none := by
    intro given
    simp [Event3.ClassMethodCallback_id, templateId]
  refine ⟨⟨hf, hf, hf, hf⟩, ⟨?_, ?_, ?_⟩, ⟨rfl, rfl, rfl, rfl⟩,
    ⟨broadcast_eq_spec P0 _ _ w, broadcast_eq_spec P1 _ _ w, broadcast_eq_spec P2 _ _ w,
      broadcast_eq_spec P3 _ _ w⟩, ⟨?_, ?_⟩,
    ⟨removeListener_function_among_methods UINT16_RANGE (le_refl _) f,
      spec_removeListener_function_among_methods UINT16_RANGE f⟩⟩
  · exact congrArg some hm
  · exact congrArg some hm
  · exact congrArg some hm
  · simp [Event3.addListenerC, h3]
  · simp [Event3.removeListenerC, h3]

/-- C17: `addListener` of an absent key followed by `removeListener` of it is
claimed to give back the registry.  On the registry `crowded`, which holds
65536 entries none of which is `(nullptr, &FunctionCallback<0>)`, the call
`addListener<0>()` puts the entry at index 65536 and the call
`removeListener<0>()` that follows is never left, whatever the fuel. -/
theorem add_then_remove_past_uint16_never_returns :
    Reachable crowded ∧
    (nullptr, InternalFunction.FunctionCallback 0) ∉ crowded._callbacks ∧
    ∀ fuel, (crowded.addListener 0).removeListener fuel 0 = none :=
  ⟨reachable_sameMethodOn UINT16_RANGE,
   function_absent_from_methods UINT16_RANGE 0,
   add_then_remove_function_behind_methods UINT16_RANGE (le_refl _) 0⟩

/-- C18: `removeListener` is claimed to be idempotent on reachable registries.
On the reachable registry `functionThenCrowded`, which holds
`(nullptr, &FunctionCallback<0>)` at index 0 followed by 65536 other entries,
the first `removeListener<0>()` returns the registry `crowded`, in which no
entry has the key, and the second `removeListener<0>()` is never left, whatever
the fuel. -/
theorem second_removeListener_never_returns :
    Reachable functionThenCrowded ∧
    (∀ fuel, functionThenCrowded.removeListener (fuel + 1) 0 = some crowded) ∧
    (nullptr, InternalFunction.FunctionCallback 0) ∉ crowded._callbacks ∧
    ∀ fuel, crowded.removeListener fuel 0 = none :=
  ⟨reachable_function_then_sameMethodOn UINT16_RANGE 0,
   fun fuel => removeListener_function_at_head 0 fuel _,
   function_absent_from_methods UINT16_RANGE 0,
   removeListener_function_among_methods UINT16_RANGE (le_refl _) 0⟩

/-- C19: two removals are claimed to commute on every registry.  On the
reachable registry `functionCrowdedFunction`, which holds 65537 entries with
`(nullptr, &FunctionCallback<0>)` at index 0 and `(nullptr, &FunctionCallback<1>)`
at index 65536, `removeListener<0>()` then `removeListener<1>()` returns the
registry without the two, while `removeListener<1>()` first is never left,
whatever the fuel. -/
theorem removals_in_other_order_never_return :
    Reachable functionCrowdedFunction ∧
    (∀ fuel, Event.removeEach (fuel + UINT16_RANGE)
        [Listener.function 0, Listener.function 1] functionCrowdedFunction =
      some almostCrowded) ∧
    (∀ fuel, Event.removeEach fuel
        [Listener.function 1, Listener.function 0] functionCrowdedFunction = none) :=
  ⟨reachable_function_methods_function 65535 0 1 (by decide),
   removeEach_head_then_last 65535 (by decide) 0 1,
   removeEach_last_then_head 65535 (by decide) 0 1 (by decide)⟩

/-! ## The round trip past `2 ^ 16` listeners -/

theorem function_methods_function_nodup (n f g : Nat) (hfg : f ≠ g) :
    ((Listener.function f :: (sameMethodOn n ++ [Listener.function g])).map
      Listener.key).Nodup := by
  apply List.Nodup.map Listener.key_injective
  rw [List.nodup_cons, List.nodup_append]
  refine ⟨?_, sameMethodOn_nodup n, List.nodup_singleton _, ?_⟩
  · intro hmem
    rcases List.mem_append.1 hmem with h | h
    · exact function_not_mem_sameMethodOn n f h
    · simp at h
      exact hfg h
  · intro x hx hx2
    rw [List.mem_singleton] at hx2
    subst hx2
    exact function_not_mem_sameMethodOn _ _ hx

theorem function_methods_function_length (n f g : Nat) :
    (Listener.function f :: (sameMethodOn n ++ [Listener.function g])).length = n + 2 := by
  simp [sameMethodOn_length]

theorem addEach_function_methods_function (n f g : Nat) (hfg : f ≠ g) :
    Event.addEach (Listener.function f :: (sameMethodOn n ++ [Listener.function g])) Event.new =
      ⟨Listener.key (Listener.function f) ::
        ((sameMethodOn n).map Listener.key ++ [Listener.key (Listener.function g)])⟩ := by
  rw [addEach_fresh _ Event.new
    (by simpa [Event.new] using function_methods_function_nodup n f g hfg)]
  simp [Event.new]

theorem last_first_perm (n f g : Nat) :
    (Listener.function g :: (Listener.function f :: sameMethodOn n)).Perm
      (Listener.function f :: (sameMethodOn n ++ [Listener.function g])) :=
  (List.perm_append_singleton (Listener.function g)
    (Listener.function f :: sameMethodOn n)).symm

theorem removeEach_in_order_after_addEach (n f g : Nat) (hfg : f ≠ g) (fuel : Nat) :
    Event.removeEach (fuel + 1)
        (Listener.function f :: (sameMethodOn n ++ [Listener.function g]))
        (Event.addEach (Listener.function f :: (sameMethodOn n ++ [Listener.function g]))
          Event.new) = some ⟨[]⟩ := by
  rw [addEach_fresh _ Event.new
    (by simpa [Event.new] using function_methods_function_nodup n f g hfg)]
  have h := removeEach_in_order (fuel + 1) (Nat.succ_pos fuel)
    (Listener.function f :: (sameMethodOn n ++ [Listener.function g]))
  simpa [Event.new] using h

/-- After 65537 registrations, removing the listener registered last before the
others never returns. -/
theorem removeEach_last_first_after_addEach (n : Nat) (hn : UINT16_RANGE ≤ n + 1) (f g : Nat)
    (hfg : f ≠ g) (fuel : Nat) :
    Event.removeEach fuel (Listener.function g :: (Listener.function f :: sameMethodOn n))
        (Event.addEach (Listener.function f :: (sameMethodOn n ++ [Listener.function g]))
          Event.new) = none := by
  rw [addEach_function_methods_function n f g hfg]
  have hdiv := remove_diverges (Listener.function g)
    ⟨Listener.key (Listener.function f) ::
      ((sameMethodOn n).map Listener.key ++ [Listener.key (Listener.function g)])⟩
    (by simp only [List.length_cons, List.length_append, List.length_map, sameMethodOn_length,
          List.length_singleton]; omega)
    (by
      intro hmem
      have hsplit : Listener.key (Listener.function f) ::
          ((sameMethodOn n).map Listener.key ++ [Listener.key (Listener.function g)]) =
          (Listener.key (Listener.function f) :: (sameMethodOn n).map Listener.key) ++
            [Listener.key (Listener.function g)] := rfl
      have hlen : UINT16_RANGE ≤
          (Listener.key (Listener.function f) :: (sameMethodOn n).map Listener.key).length := by
        simpa [sameMethodOn_length] using hn
      simp only [hsplit] at hmem
      rw [List.take_append_of_le_length hlen] at hmem
      rcases List.mem_cons.1 (List.mem_of_mem_take hmem) with h | h
      · exact hfg (by simpa [Listener.key] using h.symm)
      · exact function_key_not_mem_sameMethodOn n g h)
    fuel
  simp only [Event.removeEach, hdiv]

/-- C10: the round trip is claimed for every `N`.  For the 65537 listeners
`manyListeners`, whose keys are pairwise distinct, adding them in turn to a new
registry and broadcasting does make one call per listener, in the order added
and with the arguments given, and removing them in the order added returns and
empties the registry; but removing them with the listener added last taken
first never returns, whatever the fuel: its entry sits at index 65536, which
the `uint16_t` index never reaches, so no broadcast follows. -/
theorem round_trip_removal_past_uint16_never_returns {A W : Type} (P : Program A W) (args : A)
    (w : W) :
    (manyListeners.map Listener.key).Nodup ∧
    manyListeners.length = 65535 + 2 ∧
    ((Event.new.addEach manyListeners).broadcast P args w).2 =
      manyListeners.map (fun l => (l.key, args)) ∧
    (∀ fuel, (Event.new.addEach manyListeners).removeEach (fuel + 1) manyListeners =
      some ⟨[]⟩) ∧
    manyListenersLastFirst.Perm manyListeners ∧
    (∀ fuel, (Event.new.addEach manyListeners).removeEach fuel manyListenersLastFirst = none) :=
  ⟨function_methods_function_nodup 65535 0 1 (by decide),
   function_methods_function_length 65535 0 1,
   (add_broadcast_remove_round_trip P manyListeners args w
     (function_methods_function_nodup 65535 0 1 (by decide))).1,
   removeEach_in_order_after_addEach 65535 0 1 (by decide),
   last_first_perm 65535 0 1,
   removeEach_last_first_after_addEach 65535 (by decide) 0 1 (by decide)⟩

end jso
